import Mathlib

/-!
Verification development for the soundscape backend room/connection manager.

The development shallowly embeds the two server variants of the repository:

* the `ws`-based core (`src/RoomManager.ts` together with the `ws` transport
  entry point): `ManagerState` and the operations `addClient`, `removeClient`,
  `broadcastToRoom`, `pingClient`, `updateClientLastSeen`,
  `cleanupInactiveClients`, plus the transport-level message handler
  `wsServerOnMessage` and the connection-handler pipeline `wsInbound`;
* the socket.io variant (the express/socket.io entry point): `SioState` with
  `sioOnConnection`, `sioOnUpdate`, `sioOnDisconnect`.

Modelling conventions:

* JavaScript `Map` objects become association lists (`mapGet`, `mapSet`,
  `mapDelete`, `mapHas`) that preserve insertion order; `Map.set` on an
  existing key replaces the value in place, otherwise appends.
* `Date.now()` becomes an explicit `now : Nat` passed to each operation; all
  `Date.now()` calls inside one synchronous operation yield the same value.
* A WebSocket handle is a record of an identifier and a ready state;
  `ws.send` either succeeds or throws, decided by an environment function
  `sendOk : Nat → Bool` of the handle identifier.  Successful sends and
  `close()` calls are recorded in an event log.
* The mutually recursive `removeClient`/`broadcastToRoom` pair can recurse
  without bound in the real code (send failures during a broadcast trigger
  further broadcasts), so the operations take a fuel argument and return
  `none` when the fuel runs out; `none` models a computation that does not
  complete (unbounded recursion / stack overflow), never a normal return.
* The TS code mutates `Room` objects that are aliased by the registry map.
  While a room is registered, the object and the registry entry are the same
  mutable state, and a room is only unregistered at the moment its client map
  becomes empty (after which no operation mutates it again, because every
  mutation path re-reads the registry).  The embedding therefore re-reads the
  registry wherever the code writes through a captured object reference; a
  write through a reference whose room is no longer registered is dropped,
  which is exactly the observable behaviour of mutating the orphaned object.
* Floating-point particle payloads are opaque pass-through data; their
  numeric fields are modelled over `Int`.
-/

/-- Ready states of a `ws` WebSocket (the code only ever compares against
`WebSocket.OPEN`). -/
inductive ReadyState where
  | CONNECTING
  | OPEN
  | CLOSING
  | CLOSED
deriving DecidableEq, Repr

/-- A transport connection handle: an identity and its current ready state. -/
structure WS where
  id : Nat
  readyState : ReadyState
deriving DecidableEq, Repr

/-- The `type` discriminator of a wire message (from `types.ts`). -/
inductive MsgType where
  | user_joined
  | user_left
  | init
  | update
  | ping
  | pong
deriving DecidableEq, Repr

/-- One particle of the opaque payload (f64 fields modelled over `Int`). -/
structure Particle where
  position : Int × Int × Int
  rotation : Int
  scale : Int
  velocity : Int × Int × Int
deriving DecidableEq, Repr

/-- `WebSocketMessage` from `types.ts`. -/
structure WebSocketMessage where
  type : MsgType
  userId : String
  timestamp : Nat
  particles : Option (List Particle)
  color : Option Nat
deriving DecidableEq, Repr

def MsgType.str : MsgType → String
  | .user_joined => "user_joined"
  | .user_left => "user_left"
  | .init => "init"
  | .update => "update"
  | .ping => "ping"
  | .pong => "pong"

def Particle.str (p : Particle) : String :=
  "[" ++ toString p.position.1 ++ "," ++ toString p.position.2.1 ++ ","
    ++ toString p.position.2.2 ++ "|" ++ toString p.rotation ++ "|"
    ++ toString p.scale ++ "|" ++ toString p.velocity.1 ++ ","
    ++ toString p.velocity.2.1 ++ "," ++ toString p.velocity.2.2 ++ "]"

def particlesStr : List Particle → String
  | [] => ""
  | p :: ps => p.str ++ particlesStr ps

/-- `JSON.stringify` of a message, modelled as an injective-by-construction
rendering; only the facts that it is a function of the message and that it
exposes the `timestamp` field matter to the claims. -/
def stringify (m : WebSocketMessage) : String :=
  "type=" ++ m.type.str ++ ";userId=" ++ m.userId ++ ";timestamp="
    ++ toString m.timestamp ++ ";particles="
    ++ (match m.particles with
        | none => "-"
        | some ps => particlesStr ps)
    ++ ";color="
    ++ (match m.color with
        | none => "-"
        | some c => toString c)

/-- Observable transport effects of the core: a successful `send` of bytes to
a handle, or a `close()` of a handle. -/
inductive Event where
  | sent (wsId : Nat) (data : String)
  | closedWs (wsId : Nat)
deriving DecidableEq, Repr

/-! ### Association-list model of JavaScript `Map` -/

def mapGet {α : Type} : List (String × α) → String → Option α
  | [], _ => none
  | (k, v) :: rest, key => if k = key then some v else mapGet rest key

def mapHas {α : Type} (m : List (String × α)) (key : String) : Bool :=
  (mapGet m key).isSome

/-- `Map.set`: replace the entry in place when the key exists (keeping its
position, as JavaScript `Map` insertion order does), else append. -/
def mapSet {α : Type} : List (String × α) → String → α → List (String × α)
  | [], key, v => [(key, v)]
  | (k, w) :: rest, key, v =>
    if k = key then (key, v) :: rest else (k, w) :: mapSet rest key v

/-- `Map.delete`: remove the entry with the key (the maps of the program
never hold duplicate keys, so removing every occurrence is `delete`). -/
def mapDelete {α : Type} : List (String × α) → String → List (String × α)
  | [], _ => []
  | (k, w) :: rest, key =>
    if k = key then mapDelete rest key else (k, w) :: mapDelete rest key

theorem mapGet_eq_none_iff {α : Type} (m : List (String × α)) (key : String) :
    mapGet m key = none ↔ key ∉ m.map Prod.fst := by
  induction m with
  | nil => simp [mapGet]
  | cons p rest ih =>
    obtain ⟨k, v⟩ := p
    by_cases h : k = key
    · subst h
      simp [mapGet]
    · simp [mapGet, h, ih, Ne.symm h]

theorem mapGet_some_mem {α : Type} {m : List (String × α)} {key : String}
    {v : α} (h : mapGet m key = some v) : (key, v) ∈ m := by
  induction m with
  | nil => simp [mapGet] at h
  | cons p rest ih =>
    obtain ⟨k, w⟩ := p
    by_cases hk : k = key
    · subst hk
      simp [mapGet] at h
      simp [h]
    · simp [mapGet, hk] at h
      exact List.mem_cons_of_mem _ (ih h)

theorem mem_keys_of_mapGet_some {α : Type} {m : List (String × α)}
    {key : String} {v : α} (h : mapGet m key = some v) :
    key ∈ m.map Prod.fst := by
  have := mapGet_some_mem h
  exact List.mem_map.2 ⟨(key, v), this, rfl⟩

theorem mapGet_of_mem_keys {α : Type} {m : List (String × α)} {key : String}
    (h : key ∈ m.map Prod.fst) : ∃ v, mapGet m key = some v := by
  rcases hv : mapGet m key with _ | v
  · exact absurd h ((mapGet_eq_none_iff m key).1 hv)
  · exact ⟨v, rfl⟩

theorem mapGet_mapSet_self {α : Type} (m : List (String × α)) (key : String)
    (v : α) : mapGet (mapSet m key v) key = some v := by
  induction m with
  | nil => simp [mapSet, mapGet]
  | cons p rest ih =>
    obtain ⟨k, w⟩ := p
    by_cases hk : k = key
    · subst hk
      simp [mapSet, mapGet]
    · simp [mapSet, mapGet, hk, ih]

theorem mapGet_mapSet_ne {α : Type} (m : List (String × α)) (key k' : String)
    (v : α) (h : k' ≠ key) : mapGet (mapSet m key v) k' = mapGet m k' := by
  induction m with
  | nil => simp [mapSet, mapGet, Ne.symm h]
  | cons p rest ih =>
    obtain ⟨k, w⟩ := p
    by_cases hk : k = key
    · subst hk
      simp [mapSet, mapGet, Ne.symm h]
    · simp only [mapSet, if_neg hk, mapGet]
      by_cases hk' : k = k'
      · simp [hk']
      · simp [hk', ih]

theorem mapSet_ne_nil {α : Type} (m : List (String × α)) (key : String)
    (v : α) : mapSet m key v ≠ [] := by
  cases m with
  | nil => simp [mapSet]
  | cons p rest =>
    obtain ⟨k, w⟩ := p
    by_cases hk : k = key
    · simp [mapSet, hk]
    · simp [mapSet, hk]

theorem mem_mapSet {α : Type} {m : List (String × α)} {key : String} {v : α}
    {p : String × α} (h : p ∈ mapSet m key v) : p ∈ m ∨ p = (key, v) := by
  induction m with
  | nil => simpa [mapSet] using h
  | cons q rest ih =>
    obtain ⟨k, w⟩ := q
    by_cases hk : k = key
    · have h2 : p = (key, v) ∨ p ∈ rest := by simpa [mapSet, hk] using h
      rcases h2 with h2 | h2
      · exact Or.inr h2
      · exact Or.inl (List.mem_cons_of_mem _ h2)
    · have h2 : p = (k, w) ∨ p ∈ mapSet rest key v := by
        simpa [mapSet, hk] using h
      rcases h2 with h2 | h2
      · exact Or.inl (by simp [h2])
      · rcases ih h2 with h3 | h3
        · exact Or.inl (List.mem_cons_of_mem _ h3)
        · exact Or.inr h3

theorem mem_mapDelete {α : Type} {m : List (String × α)} {key : String}
    {p : String × α} (h : p ∈ mapDelete m key) : p ∈ m := by
  induction m with
  | nil => simp [mapDelete] at h
  | cons q rest ih =>
    obtain ⟨k, w⟩ := q
    by_cases hk : k = key
    · simp only [mapDelete, if_pos hk] at h
      exact List.mem_cons_of_mem _ (ih h)
    · simp only [mapDelete, if_neg hk, List.mem_cons] at h
      rcases h with h | h
      · exact h ▸ List.mem_cons_self _ _
      · exact List.mem_cons_of_mem _ (ih h)

theorem mapGet_mapDelete_self {α : Type} (m : List (String × α))
    (key : String) : mapGet (mapDelete m key) key = none := by
  induction m with
  | nil => simp [mapDelete, mapGet]
  | cons p rest ih =>
    obtain ⟨k, v⟩ := p
    by_cases hk : k = key
    · simpa [mapDelete, hk] using ih
    · simp [mapDelete, mapGet, hk, ih]

theorem mapGet_mapDelete_ne {α : Type} (m : List (String × α))
    (key k' : String) (h : k' ≠ key) :
    mapGet (mapDelete m key) k' = mapGet m k' := by
  induction m with
  | nil => simp [mapDelete]
  | cons p rest ih =>
    obtain ⟨k, v⟩ := p
    by_cases hk : k = key
    · subst hk
      simp [mapDelete, mapGet, Ne.symm h, ih]
    · simp only [mapDelete, if_neg hk, mapGet]
      by_cases hk' : k = k'
      · simp [hk']
      · simp [hk', ih]

theorem mapSet_mapSet {α : Type} (m : List (String × α)) (key : String)
    (v w : α) : mapSet (mapSet m key v) key w = mapSet m key w := by
  induction m with
  | nil => simp [mapSet]
  | cons p rest ih =>
    obtain ⟨k, u⟩ := p
    by_cases hk : k = key
    · simp [mapSet, hk]
    · simp [mapSet, hk, ih]

/-! ### The `RoomManager` state (ws variant, `src/RoomManager.ts`) -/

/-- `RoomClient` from `types.ts`. -/
structure RoomClient where
  ws : WS
  userId : String
  lastSeen : Nat
deriving DecidableEq, Repr

/-- `Room` from `types.ts`. -/
structure Room where
  id : String
  clients : List (String × RoomClient)
  lastCleanup : Nat
deriving DecidableEq, Repr

/-- The mutable state of a `RoomManager` together with the log of observable
transport effects.  `pingIntervals` keeps the keys of the live per-client ping
timers; `serializations` counts the `JSON.stringify` calls performed by
`broadcastToRoom`. -/
structure ManagerState where
  rooms : List (String × Room)
  pingIntervals : List String
  events : List Event
  serializations : Nat
deriving DecidableEq, Repr

def CLEANUP_INTERVAL : Nat := 30000
def CLIENT_TIMEOUT : Nat := 60000
def PING_INTERVAL : Nat := 30000

/-- The send condition of `broadcastToRoom`:
`(!excludeUserId || client.userId !== excludeUserId) && client.ws.readyState === WebSocket.OPEN`. -/
def shouldSend (exclude : Option String) (c : RoomClient) : Bool :=
  (match exclude with
   | none => true
   | some e => decide (c.userId ≠ e))
  && decide (c.ws.readyState = ReadyState.OPEN)

/-!
`RoomManager.removeClient` / `RoomManager.broadcastToRoom`.

The two methods recurse into each other (a failed send during a broadcast
triggers `removeClient`, whose `user_left` broadcast can fail again), and the
real code can recurse without bound; `fuel` bounds the recursion depth and
every recursive call consumes one unit.  `none` models a computation that
never returns normally.  `broadcastLoop` is the body of the
`room.clients.forEach` iteration: JavaScript `Map.forEach` iterates the live
map in insertion order and skips entries deleted before being visited, and
the operations here only ever delete entries mid-iteration, so iterating the
snapshot of keys and re-reading the registry at each step is faithful.  When
the registry no longer holds the room, the shared room object has just been
emptied, so the remaining keys are all deleted and are skipped.
-/
inductive MgrCall where
  | remove (roomId userId : String)
  | bcast (roomId : String) (msg : WebSocketMessage) (exclude : Option String)
  | bloop (roomId : String) (keys : List String) (messageStr : String)
      (exclude : Option String)

/-- Single structurally-recursive driver for the mutually recursive pair
`removeClient`/`broadcastToRoom` (and the body of the latter's `forEach`
loop), so that concrete runs reduce inside the kernel.  The wrappers
`removeClient`, `broadcastToRoom` and `broadcastLoop` below restore the
source's shape. -/
def mgrRun (sendOk : Nat → Bool) (now : Nat) :
    Nat → ManagerState → MgrCall → Option ManagerState
  | 0, _, _ => none
  | f + 1, st, MgrCall.remove roomId userId =>
    (match mapGet st.rooms roomId with
     | none => some st
     | some _ =>
       let msg : WebSocketMessage :=
         { type := MsgType.user_left, userId := userId, timestamp := now,
           particles := none, color := none }
       match mgrRun sendOk now f st (MgrCall.bcast roomId msg (some userId)) with
       | none => none
       | some st1 =>
         let key := roomId ++ "-" ++ userId
         let st2 : ManagerState :=
           { st1 with pingIntervals := st1.pingIntervals.filter (fun k => k ≠ key) }
         match mapGet st2.rooms roomId with
         | none => some st2
         | some room2 =>
           if mapHas room2.clients userId then
             let clients2 := mapDelete room2.clients userId
             if clients2.isEmpty then
               some { st2 with rooms := mapDelete st2.rooms roomId }
             else
               let room3 := { room2 with clients := clients2 }
               some { st2 with rooms := mapSet st2.rooms roomId room3 }
           else
             some st2)
  | f + 1, st, MgrCall.bcast roomId msg exclude =>
    (match mapGet st.rooms roomId with
     | none => some st
     | some room =>
       mgrRun sendOk now f
         { st with serializations := st.serializations + 1 }
         (MgrCall.bloop roomId (room.clients.map Prod.fst) (stringify msg) exclude))
  | f + 1, st, MgrCall.bloop roomId keys messageStr exclude =>
    (match keys with
     | [] => some st
     | k :: ks =>
       match mapGet st.rooms roomId with
       | none => some st
       | some room =>
         match mapGet room.clients k with
         | none => mgrRun sendOk now f st (MgrCall.bloop roomId ks messageStr exclude)
         | some client =>
           if shouldSend exclude client then
             if sendOk client.ws.id then
               let client2 := { client with lastSeen := now }
               let room2 := { room with clients := mapSet room.clients k client2 }
               let st2 : ManagerState :=
                 { st with
                   rooms := mapSet st.rooms roomId room2,
                   events := Event.sent client.ws.id messageStr :: st.events }
               mgrRun sendOk now f st2 (MgrCall.bloop roomId ks messageStr exclude)
             else
               match mgrRun sendOk now f st (MgrCall.remove roomId client.userId) with
               | none => none
               | some st2 =>
                 mgrRun sendOk now f st2 (MgrCall.bloop roomId ks messageStr exclude)
           else
             mgrRun sendOk now f st (MgrCall.bloop roomId ks messageStr exclude))

/-- `RoomManager.removeClient`. -/
def removeClient (sendOk : Nat → Bool) (now : Nat) (fuel : Nat)
    (st : ManagerState) (roomId userId : String) : Option ManagerState :=
  mgrRun sendOk now fuel st (MgrCall.remove roomId userId)

/-- `RoomManager.broadcastToRoom`. -/
def broadcastToRoom (sendOk : Nat → Bool) (now : Nat) (fuel : Nat)
    (st : ManagerState) (roomId : String) (msg : WebSocketMessage)
    (exclude : Option String) : Option ManagerState :=
  mgrRun sendOk now fuel st (MgrCall.bcast roomId msg exclude)

/-- The body of the `room.clients.forEach` iteration of `broadcastToRoom`. -/
def broadcastLoop (sendOk : Nat → Bool) (now : Nat) (fuel : Nat)
    (st : ManagerState) (roomId : String) (keys : List String)
    (messageStr : String) (exclude : Option String) : Option ManagerState :=
  mgrRun sendOk now fuel st (MgrCall.bloop roomId keys messageStr exclude)

theorem removeClient_zero (sendOk : Nat → Bool) (now : Nat) (st : ManagerState)
    (roomId userId : String) : removeClient sendOk now 0 st roomId userId = none :=
  rfl

/-- One-step unfolding of `removeClient`, in terms of the wrappers. -/
theorem removeClient_succ (sendOk : Nat → Bool) (now : Nat) (f : Nat)
    (st : ManagerState) (roomId userId : String) :
    removeClient sendOk now (f + 1) st roomId userId =
      match mapGet st.rooms roomId with
      | none => some st
      | some _ =>
        match broadcastToRoom sendOk now f st roomId
            { type := MsgType.user_left, userId := userId, timestamp := now,
              particles := none, color := none } (some userId) with
        | none => none
        | some st1 =>
          let key := roomId ++ "-" ++ userId
          let st2 : ManagerState :=
            { st1 with pingIntervals := st1.pingIntervals.filter (fun k => k ≠ key) }
          match mapGet st2.rooms roomId with
          | none => some st2
          | some room2 =>
            if mapHas room2.clients userId then
              let clients2 := mapDelete room2.clients userId
              if clients2.isEmpty then
                some { st2 with rooms := mapDelete st2.rooms roomId }
              else
                let room3 := { room2 with clients := clients2 }
                some { st2 with rooms := mapSet st2.rooms roomId room3 }
            else
              some st2 :=
  rfl

theorem broadcastToRoom_zero (sendOk : Nat → Bool) (now : Nat)
    (st : ManagerState) (roomId : String) (msg : WebSocketMessage)
    (exclude : Option String) :
    broadcastToRoom sendOk now 0 st roomId msg exclude = none :=
  rfl

/-- One-step unfolding of `broadcastToRoom`. -/
theorem broadcastToRoom_succ (sendOk : Nat → Bool) (now : Nat) (f : Nat)
    (st : ManagerState) (roomId : String) (msg : WebSocketMessage)
    (exclude : Option String) :
    broadcastToRoom sendOk now (f + 1) st roomId msg exclude =
      match mapGet st.rooms roomId with
      | none => some st
      | some room =>
        broadcastLoop sendOk now f
          { st with serializations := st.serializations + 1 }
          roomId (room.clients.map Prod.fst) (stringify msg) exclude :=
  rfl

theorem broadcastLoop_zero (sendOk : Nat → Bool) (now : Nat)
    (st : ManagerState) (roomId : String) (keys : List String)
    (messageStr : String) (exclude : Option String) :
    broadcastLoop sendOk now 0 st roomId keys messageStr exclude = none :=
  rfl

/-- One-step unfolding of `broadcastLoop`. -/
theorem broadcastLoop_succ (sendOk : Nat → Bool) (now : Nat) (f : Nat)
    (st : ManagerState) (roomId : String) (keys : List String)
    (messageStr : String) (exclude : Option String) :
    broadcastLoop sendOk now (f + 1) st roomId keys messageStr exclude =
      match keys with
      | [] => some st
      | k :: ks =>
        match mapGet st.rooms roomId with
        | none => some st
        | some room =>
          match mapGet room.clients k with
          | none => broadcastLoop sendOk now f st roomId ks messageStr exclude
          | some client =>
            if shouldSend exclude client then
              if sendOk client.ws.id then
                let client2 := { client with lastSeen := now }
                let room2 := { room with clients := mapSet room.clients k client2 }
                let st2 : ManagerState :=
                  { st with
                    rooms := mapSet st.rooms roomId room2,
                    events := Event.sent client.ws.id messageStr :: st.events }
                broadcastLoop sendOk now f st2 roomId ks messageStr exclude
              else
                match removeClient sendOk now f st roomId client.userId with
                | none => none
                | some st2 => broadcastLoop sendOk now f st2 roomId ks messageStr exclude
            else
              broadcastLoop sendOk now f st roomId ks messageStr exclude :=
  rfl

/-- `RoomManager.pingClient`: send a `ping` probe to one client; on any
failure (missing room/client, non-open socket, throwing send) fall back to
`removeClient`.  A successful ping does not touch `lastSeen`. -/
def pingClient (sendOk : Nat → Bool) (now : Nat) (fuel : Nat)
    (st : ManagerState) (roomId userId : String) : Option ManagerState :=
  match fuel with
  | 0 => none
  | f + 1 =>
    match mapGet st.rooms roomId with
    | none => removeClient sendOk now f st roomId userId
    | some room =>
      match mapGet room.clients userId with
      | none => removeClient sendOk now f st roomId userId
      | some client =>
        if client.ws.readyState = ReadyState.OPEN then
          let pingMsg : WebSocketMessage :=
            { type := MsgType.ping, userId := "server", timestamp := now,
              particles := none, color := none }
          if sendOk client.ws.id then
            some { st with
                    events := Event.sent client.ws.id (stringify pingMsg) :: st.events }
          else
            removeClient sendOk now f st roomId userId
        else
          removeClient sendOk now f st roomId userId

/-- `RoomManager.updateClientLastSeen`. -/
def updateClientLastSeen (now : Nat) (st : ManagerState)
    (roomId userId : String) : ManagerState :=
  match mapGet st.rooms roomId with
  | none => st
  | some room =>
    match mapGet room.clients userId with
    | none => st
    | some c =>
      let room2 := { room with clients := mapSet room.clients userId { c with lastSeen := now } }
      { st with rooms := mapSet st.rooms roomId room2 }

/-- `oldClient.ws.close()` in `addClient`: record the close and mark the
stored handle `CLOSING` (the handle object is aliased by the registry
entry). -/
def closeClientWs (st : ManagerState) (roomId userId : String) : ManagerState :=
  match mapGet st.rooms roomId with
  | none => st
  | some room =>
    match mapGet room.clients userId with
    | none => st
    | some c =>
      let c2 := { c with ws := { c.ws with readyState := ReadyState.CLOSING } }
      let room2 := { room with clients := mapSet room.clients userId c2 }
      { st with
        rooms := mapSet st.rooms roomId room2,
        events := Event.closedWs c.ws.id :: st.events }

/-- `RoomManager.addClient`.  The TS method captures the `Room` object
returned by `getOrCreateRoom` and later writes `room.clients.set(...)`
through that reference; when the duplicate-eviction path has meanwhile
deleted the room from the registry (the old client was the only member), the
write lands on the orphaned object and the registry is unchanged, which the
re-read of the registry below reproduces.  The `ws.on(...)` listener
registrations have no immediate state effect and are modelled by the
separate entry points `managerOnMessage` / `removeClient`. -/
def addClient (sendOk : Nat → Bool) (now : Nat) (fuel : Nat)
    (st : ManagerState) (roomId userId : String) (ws : WS) :
    Option ManagerState :=
  match fuel with
  | 0 => none
  | f + 1 =>
    let createdRoom : Room := { id := roomId, clients := [], lastCleanup := now }
    let room : Room :=
      match mapGet st.rooms roomId with
      | some r => r
      | none => createdRoom
    let st1 : ManagerState :=
      match mapGet st.rooms roomId with
      | some _ => st
      | none => { st with rooms := mapSet st.rooms roomId createdRoom }
    let step2 : Option ManagerState :=
      if mapHas room.clients userId then
        let st2 :=
          match mapGet room.clients userId with
          | some oldClient =>
            if oldClient.ws.readyState = ReadyState.OPEN then
              closeClientWs st1 roomId userId
            else st1
          | none => st1
        removeClient sendOk now f st2 roomId userId
      else some st1
    match step2 with
    | none => none
    | some st3 =>
      let client : RoomClient := { ws := ws, userId := userId, lastSeen := now }
      let st4 : ManagerState :=
        match mapGet st3.rooms roomId with
        | none => st3
        | some r3 =>
          let r4 := { r3 with clients := mapSet r3.clients userId client }
          { st3 with rooms := mapSet st3.rooms roomId r4 }
      let key := roomId ++ "-" ++ userId
      let st5 : ManagerState :=
        { st4 with pingIntervals :=
            if st4.pingIntervals.contains key then st4.pingIntervals
            else st4.pingIntervals ++ [key] }
      pingClient sendOk now f st5 roomId userId

/-- Inner loop of `cleanupInactiveClients` over the snapshot of one room's
client keys (`room.clients.forEach`); when the registry entry is gone the
shared map has been emptied, so the remaining keys are all deleted and the
iteration does nothing further. -/
def cleanupClientsLoop (sendOk : Nat → Bool) (now : Nat) (fuel : Nat)
    (st : ManagerState) (roomId : String) (uids : List String) :
    Option ManagerState :=
  match fuel with
  | 0 => none
  | f + 1 =>
    match uids with
    | [] => some st
    | uid :: rest =>
      match mapGet st.rooms roomId with
      | none => some st
      | some room =>
        match mapGet room.clients uid with
        | none => cleanupClientsLoop sendOk now f st roomId rest
        | some client =>
          if now - client.lastSeen > CLIENT_TIMEOUT then
            match removeClient sendOk now f st roomId uid with
            | none => none
            | some st2 => cleanupClientsLoop sendOk now f st2 roomId rest
          else
            cleanupClientsLoop sendOk now f st roomId rest

/-- Outer loop of `cleanupInactiveClients` over the snapshot of room keys
(`this.rooms.forEach`). -/
def cleanupRoomsLoop (sendOk : Nat → Bool) (now : Nat) (fuel : Nat)
    (st : ManagerState) (roomIds : List String) : Option ManagerState :=
  match fuel with
  | 0 => none
  | f + 1 =>
    match roomIds with
    | [] => some st
    | rid :: rest =>
      match mapGet st.rooms rid with
      | none => cleanupRoomsLoop sendOk now f st rest
      | some room =>
        if now - room.lastCleanup < CLEANUP_INTERVAL then
          cleanupRoomsLoop sendOk now f st rest
        else
          match cleanupClientsLoop sendOk now f st rid (room.clients.map Prod.fst) with
          | none => none
          | some st2 =>
            let st3 : ManagerState :=
              match mapGet st2.rooms rid with
              | none => st2
              | some r2 =>
                { st2 with rooms := mapSet st2.rooms rid { r2 with lastCleanup := now } }
            cleanupRoomsLoop sendOk now f st3 rest

/-- `RoomManager.cleanupInactiveClients` (the periodic sweep). -/
def cleanupInactiveClients (sendOk : Nat → Bool) (now : Nat) (fuel : Nat)
    (st : ManagerState) : Option ManagerState :=
  match fuel with
  | 0 => none
  | f + 1 => cleanupRoomsLoop sendOk now f st (st.rooms.map Prod.fst)

/-- The `ws.on('message')` listener that `addClient` registers (closing over
`roomId`/`userId`): only a `pong` refreshes `lastSeen`; every other inbound
frame is ignored by the manager.  Parsing happens before this point; an
unparseable frame is caught and dropped by the surrounding `try`. -/
def managerOnMessage (now : Nat) (st : ManagerState) (roomId userId : String)
    (data : WebSocketMessage) : ManagerState :=
  if data.type = MsgType.pong then updateClientLastSeen now st roomId userId
  else st

/-- The transport-level `ws.on('message')` handler of the ws server entry
point (registered at connection time, before the manager's listener).  On a
`user_joined` frame with a truthy userId it evicts a same-name client by a
direct `room.clients.delete`, calls `addClient`, and broadcasts a freshly
built `user_joined`; afterwards — and for every other frame type — it
re-broadcasts the parsed inbound frame verbatim to the rest of the room.
Returns the new state together with the connection's (possibly updated)
`userId` binding. -/
def wsServerOnMessage (sendOk : Nat → Bool) (now : Nat) (fuel : Nat)
    (st : ManagerState) (roomId : String) (userId : Option String) (ws : WS)
    (data : WebSocketMessage) : Option (ManagerState × Option String) :=
  match fuel with
  | 0 => none
  | f + 1 =>
    if data.type = MsgType.user_joined ∧ data.userId ≠ "" then
      let dedup : ManagerState :=
        match mapGet st.rooms roomId with
        | none => st
        | some room =>
          match mapGet room.clients data.userId with
          | none => st
          | some oldClient =>
            let stc :=
              if oldClient.ws.readyState = ReadyState.OPEN then
                { st with events := Event.closedWs oldClient.ws.id :: st.events }
              else st
            let room2 := { room with clients := mapDelete room.clients data.userId }
            { stc with rooms := mapSet stc.rooms roomId room2 }
      match addClient sendOk now f dedup roomId data.userId ws with
      | none => none
      | some st2 =>
        let joinMsg : WebSocketMessage :=
          { type := MsgType.user_joined, userId := data.userId, timestamp := now,
            particles := none, color := none }
        match broadcastToRoom sendOk now f st2 roomId joinMsg (some data.userId) with
        | none => none
        | some st3 =>
          match broadcastToRoom sendOk now f st3 roomId data (some data.userId) with
          | none => none
          | some st4 => some (st4, some data.userId)
    else
      match userId with
      | none => some (st, none)
      | some uid =>
        match broadcastToRoom sendOk now f st roomId data (some uid) with
        | none => none
        | some st2 => some (st2, some uid)

/-- Processing of one inbound frame on an identified connection in the ws
server: the transport handler runs first (it was registered first), then the
manager's own listener for that connection. -/
def wsInbound (sendOk : Nat → Bool) (now : Nat) (fuel : Nat)
    (st : ManagerState) (roomId userId : String) (ws : WS)
    (data : WebSocketMessage) : Option ManagerState :=
  match wsServerOnMessage sendOk now fuel st roomId (some userId) ws data with
  | none => none
  | some (st1, _) => some (managerOnMessage now st1 roomId userId data)

/-- `const roomId = req.url?.split('/').pop() || 'default'` of the ws server
connection handler: a missing or empty room path segment becomes the room
`"default"`. -/
def lastSegmentAux : List Char → List Char → List Char
  | [], acc => acc
  | c :: rest, acc =>
    if c = '/' then lastSegmentAux rest [] else lastSegmentAux rest (acc ++ [c])

/-- `url.split('/').pop()`: the characters after the last slash (the whole
string when there is no slash; empty for a trailing slash). -/
def jsSplitPop (u : String) : String :=
  String.mk (lastSegmentAux u.data [])

def wsConnRoomId (url : Option String) : String :=
  match url with
  | none => "default"
  | some u =>
    let popped := jsSplitPop u
    if popped = "" then "default" else popped

/-! ### The socket.io server variant -/

/-- `User` of the socket.io variant. -/
structure SioUser where
  id : String
  color : Nat
  particles : Option (List Particle)
  lastUpdate : Nat
deriving DecidableEq, Repr

/-- `Room` of the socket.io variant. -/
structure SioRoom where
  users : List (String × SioUser)
  lastActivity : Nat
deriving DecidableEq, Repr

/-- An `io.to(roomId).emit('message', ...)` record (delivery to the
socket.io room is performed by the transport layer). -/
structure SioEmit where
  roomId : String
  type : MsgType
  userId : String
  timestamp : Nat
  particles : Option (List Particle)
  color : Option Nat
deriving DecidableEq, Repr

/-- State of the socket.io server: the room registry, the socket-to-user
table, the log of emitted room messages and of sockets dropped by
`socket.disconnect()`. -/
structure SioState where
  rooms : List (String × SioRoom)
  socketToUser : List (String × String)
  emits : List SioEmit
  disconnectedSockets : List String
deriving DecidableEq, Repr

/-- JavaScript truthiness of an optional string (`!userId`): absent or empty
is falsy. -/
def sioFalsy : Option String → Bool
  | none => true
  | some s => decide (s = "")

/-- The `io.on('connection')` handler: drop the connection when either query
parameter is missing, otherwise create the room on demand, register the
user, and emit `user_joined` to the room. -/
def sioOnConnection (now : Nat) (st : SioState) (socketId : String)
    (userIdQ roomIdQ : Option String) : SioState :=
  if sioFalsy userIdQ || sioFalsy roomIdQ then
    { st with disconnectedSockets := socketId :: st.disconnectedSockets }
  else
    let userId := userIdQ.getD ""
    let roomId := roomIdQ.getD ""
    let st1 : SioState :=
      if mapHas st.rooms roomId then st
      else { st with rooms := mapSet st.rooms roomId { users := [], lastActivity := now } }
    match mapGet st1.rooms roomId with
    | none => st1
    | some room =>
      let user : SioUser := { id := userId, color := 0xffffff, particles := none, lastUpdate := now }
      let room2 := { room with users := mapSet room.users userId user }
      { st1 with
        rooms := mapSet st1.rooms roomId room2,
        socketToUser := mapSet st1.socketToUser socketId userId,
        emits := { roomId := roomId, type := MsgType.user_joined, userId := userId,
                   timestamp := now, particles := none, color := none } :: st1.emits }

/-- The `socket.on('update')` handler: refresh the room's `lastActivity`,
update the stored user (note the JavaScript `message.color || user.color`,
under which a color of `0` is falsy and keeps the old color), and re-emit the
payload to the other members with the server's receipt time.  The handler
captures its `room` object at connection time; the embedding re-reads the
registry, which is the aliased state while the room is registered. -/
def sioOnUpdate (now : Nat) (st : SioState) (roomId userId : String)
    (particles : Option (List Particle)) (color : Option Nat) : SioState :=
  match mapGet st.rooms roomId with
  | none => st
  | some room =>
    let room1 := { room with lastActivity := now }
    match mapGet room1.users userId with
    | none => { st with rooms := mapSet st.rooms roomId room1 }
    | some user =>
      let jsColor :=
        match color with
        | none => user.color
        | some c => if c = 0 then user.color else c
      let user2 := { user with particles := particles, color := jsColor, lastUpdate := now }
      let room2 := { room1 with users := mapSet room1.users userId user2 }
      { st with
        rooms := mapSet st.rooms roomId room2,
        emits := { roomId := roomId, type := MsgType.update, userId := userId,
                   timestamp := now, particles := particles, color := color } :: st.emits }

/-- The `socket.on('disconnect')` handler: look up the user for the socket,
remove it from the (captured, registry-aliased) room, emit `user_left`, and
delete the room if it has just been emptied. -/
def sioOnDisconnect (now : Nat) (st : SioState) (socketId roomId : String) :
    SioState :=
  match mapGet st.socketToUser socketId with
  | none => st
  | some uid =>
    let st1 : SioState :=
      match mapGet st.rooms roomId with
      | none => st
      | some room =>
        { st with rooms := mapSet st.rooms roomId { room with users := mapDelete room.users uid } }
    let st2 := { st1 with socketToUser := mapDelete st1.socketToUser socketId }
    let st3 := { st2 with
      emits := { roomId := roomId, type := MsgType.user_left, userId := uid,
                 timestamp := now, particles := none, color := none } :: st2.emits }
    match mapGet st3.rooms roomId with
    | none => st3
    | some room2 =>
      if room2.users.isEmpty then { st3 with rooms := mapDelete st3.rooms roomId }
      else st3

/-! ### Concrete fixtures used by the evaluation theorems -/

def wsA : WS := { id := 1, readyState := ReadyState.OPEN }
def wsB : WS := { id := 2, readyState := ReadyState.OPEN }
def wsC : WS := { id := 3, readyState := ReadyState.OPEN }

/-- An environment in which every send succeeds. -/
def sendAll : Nat → Bool := fun _ => true

/-- An environment in which every send throws. -/
def sendNone : Nat → Bool := fun _ => false

def clientA : RoomClient := { ws := wsA, userId := "alice", lastSeen := 5 }
def clientB : RoomClient := { ws := wsB, userId := "bob", lastSeen := 7 }

/-- A room `"r"` holding `alice` and `bob`. -/
def roomAB : Room :=
  { id := "r", clients := [("alice", clientA), ("bob", clientB)],
    lastCleanup := 0 }

def stAliceBob : ManagerState :=
  { rooms := [("r", roomAB)],
    pingIntervals := ["r-alice", "r-bob"], events := [], serializations := 0 }

/-- A room `"r"` holding only the client `"u"` on handle `wsA`. -/
def roomOnlyU : Room :=
  { id := "r",
    clients := [("u", { ws := wsA, userId := "u", lastSeen := 0 })],
    lastCleanup := 0 }

def stOnlyU : ManagerState :=
  { rooms := [("r", roomOnlyU)],
    pingIntervals := ["r-u"], events := [], serializations := 0 }

/-- Claim C1.  Failing input: `addClient` for a userId that is the room's only
registered client.  `removeClient` empties the room and deletes it from the
registry, after which the method writes the new client into the orphaned room
object: the registry ends up with no room `"r"` at all, so no Client is
registered for the re-joining user and the new connection is unreachable
through the registry (while its ping-interval key is re-registered, leaking
a timer for a client that does not exist).  The claim requires exactly one
registered, reachable Client after the re-join regardless of the room's prior
membership; the code violates it whenever the stale session was the only
member. -/
theorem claim_C1 :
    (addClient sendAll 100 50 stOnlyU "r" "u" wsB).map
        (fun st => (mapGet st.rooms "r", st.pingIntervals, st.events))
      = some (none, ["r-u"], [Event.closedWs 1]) := by
  decide

/-- Claim C4.  Failing input: `removeClient "r" "charlie"` where room `"r"`
exists but holds no client `"charlie"`.  The method broadcasts
`user_left(charlie)` to every member before checking membership, delivering a
spurious event to `alice` and `bob` and refreshing both members' `lastSeen`
as a send side effect — observable effects the claim forbids (the membership
map itself is unchanged and no error is raised). -/
def charlieLeft : WebSocketMessage :=
  { type := MsgType.user_left, userId := "charlie", timestamp := 100,
    particles := none, color := none }

def stAfterC4 : ManagerState :=
  { rooms := [("r",
      { id := "r",
        clients := [("alice", { ws := wsA, userId := "alice", lastSeen := 100 }),
                    ("bob", { ws := wsB, userId := "bob", lastSeen := 100 })],
        lastCleanup := 0 })],
    pingIntervals := ["r-alice", "r-bob"],
    events := [Event.sent 2 (stringify charlieLeft),
               Event.sent 1 (stringify charlieLeft)],
    serializations := 1 }

theorem claim_C4 :
    removeClient sendAll 100 50 stAliceBob "r" "charlie" = some stAfterC4 := by
  decide

/-- An inbound `update` frame from `alice` carrying the client-chosen
timestamp `5`. -/
def updFromAlice : WebSocketMessage :=
  { type := MsgType.update, userId := "alice", timestamp := 5,
    particles := none, color := none }

/-- Claim C5 counterexample.  The ws transport handler re-broadcasts the
parsed inbound frame verbatim: at server receipt time `100`, the bytes
delivered to `bob` carry the sender's timestamp `5` and not the receipt
time — the claim's statement that an update re-broadcast carries the server's
receipt time is false on this input. -/
theorem claim_C5_counterexample :
    (wsInbound sendAll 100 50 stAliceBob "r" "alice" wsA updFromAlice).map
        (fun st =>
          (decide (Event.sent 2 (stringify updFromAlice) ∈ st.events),
           decide (Event.sent 2 (stringify { updFromAlice with timestamp := 100 }) ∈ st.events)))
      = some (true, false) := by
  decide

/-- Claim C6 counterexample.  An inbound `update` does not refresh the
sender's `lastSeen`: processing an update from `u` (sole member, so the
re-broadcast reaches nobody) at time `100` leaves `u.lastSeen` at its old
value `5`, though the claim requires any payload message to refresh it. -/
def roomOnlyU5 : Room :=
  { id := "r",
    clients := [("u", { ws := wsA, userId := "u", lastSeen := 5 })],
    lastCleanup := 0 }

def stOnlyU5 : ManagerState :=
  { rooms := [("r", roomOnlyU5)], pingIntervals := ["r-u"], events := [],
    serializations := 0 }

theorem claim_C6_counterexample :
    (wsInbound sendAll 100 50 stOnlyU5 "r" "u" wsA
        { type := MsgType.update, userId := "u", timestamp := 42,
          particles := none, color := none }).map
        (fun st => (mapGet st.rooms "r").map
          (fun room => (mapGet room.clients "u").map (fun c => c.lastSeen)))
      = some (some (some 5)) := by
  decide

/-- Claim C8 counterexample.  An inbound `pong` from `alice` is re-broadcast
verbatim to `bob` by the transport handler (so a pong is delivered to a
client, and the pong has state effects beyond the sender's liveness: `bob`'s
`lastSeen` is refreshed by the send and the pong bytes land in the event
log), though the claim says a pong only refreshes the sender's liveness and
is never re-broadcast. -/
theorem claim_C8_counterexample :
    (wsInbound sendAll 100 50 stAliceBob "r" "alice" wsA
        { type := MsgType.pong, userId := "alice", timestamp := 42,
          particles := none, color := none }).map
        (fun st =>
          (decide (Event.sent 2 (stringify
              { type := MsgType.pong, userId := "alice", timestamp := 42,
                particles := none, color := none }) ∈ st.events),
           (mapGet st.rooms "r").map
             (fun room => (mapGet room.clients "bob").map (fun c => c.lastSeen))))
      = some (true, some (some 100)) := by
  decide

/-- Two clients whose `lastSeen` lies further than `CLIENT_TIMEOUT` behind
the sweep time `70000`. -/
def roomBothExpired : Room :=
  { id := "r",
    clients := [("u", { ws := wsA, userId := "u", lastSeen := 0 }),
                ("v", { ws := wsB, userId := "v", lastSeen := 0 })],
    lastCleanup := 0 }

def stBothExpired : ManagerState :=
  { rooms := [("r", roomBothExpired)],
    pingIntervals := ["r-u", "r-v"], events := [], serializations := 0 }

/-- Claim C7 counterexample.  At the sweep run at `now = 70000` both `u` and
`v` satisfy `now - lastSeen > CLIENT_TIMEOUT`, yet `v` is not evicted: the
eviction of `u` broadcasts `user_left(u)` to `v`, and the successful send
refreshes `v.lastSeen` to the sweep time, so the sweep's later check sees a
fresh client.  The claim that every client over the threshold at the moment
of the sweep is evicted is false on this input. -/
theorem claim_C7_counterexample :
    (cleanupInactiveClients sendAll 70000 50 stBothExpired).map
        (fun st => (mapGet st.rooms "r").map
          (fun room => room.clients.map (fun p => (p.1, p.2.lastSeen))))
      = some (some [("v", 70000)]) := by
  decide

/-- Claim C9 counterexample.  In the ws server's connection handler a missing
(or empty) URL path yields the substituted room id `"default"`, and a
subsequent `user_joined` for that connection creates room `"default"` in the
registry; the connection is not dropped.  The claim's assertions that no
default room is substituted and that such a connection is dropped with no
state created are false for this variant. -/
theorem claim_C9_counterexample :
    wsConnRoomId none = "default" ∧ wsConnRoomId (some "") = "default" ∧
    (wsServerOnMessage sendAll 100 50
        { rooms := [], pingIntervals := [], events := [], serializations := 0 }
        (wsConnRoomId none) none wsA
        { type := MsgType.user_joined, userId := "u", timestamp := 0,
          particles := none, color := none }).map
        (fun p => mapHas p.1.rooms "default")
      = some true := by
  decide

/-! ### Claim C3: divergence of the broadcast fan-out on two dead peers -/

/-- The `user_left` message `removeClient` builds at time `100`. -/
def ulMsg (uid : String) : WebSocketMessage :=
  { type := MsgType.user_left, userId := uid, timestamp := 100,
    particles := none, color := none }

/-- With both members' sends throwing while their sockets stay `OPEN`,
`broadcastToRoom` and `removeClient` call each other forever: every fuel
bound is exhausted.  The five components follow the call cycle
`remove(alice) → loop(user_left alice) → remove(bob) → loop(user_left bob) →
remove(alice) → …`; the registry is never mutated before the recursive
descent, so the room lookup hypothesis is stable. -/
theorem twoDeadPeersAux : ∀ f : Nat, ∀ st : ManagerState,
    mapGet st.rooms "r" = some roomAB →
    removeClient sendNone 100 f st "r" "alice" = none ∧
    removeClient sendNone 100 f st "r" "bob" = none ∧
    broadcastLoop sendNone 100 f st "r" ["alice", "bob"]
      (stringify (ulMsg "alice")) (some "alice") = none ∧
    broadcastLoop sendNone 100 f st "r" ["bob"]
      (stringify (ulMsg "alice")) (some "alice") = none ∧
    broadcastLoop sendNone 100 f st "r" ["alice", "bob"]
      (stringify (ulMsg "bob")) (some "bob") = none := by
  intro f
  induction f using Nat.strong_induction_on with
  | _ f ih =>
    intro st h
    match f with
    | 0 => exact ⟨rfl, rfl, rfl, rfl, rfl⟩
    | g + 1 =>
      have hL2 : ∀ st' : ManagerState, mapGet st'.rooms "r" = some roomAB →
          broadcastLoop sendNone 100 g st' "r" ["bob"]
            (stringify (ulMsg "alice")) (some "alice") = none := by
        intro st' h'
        exact (ih g (by omega) st' h').2.2.2.1
      have hRB : ∀ st' : ManagerState, mapGet st'.rooms "r" = some roomAB →
          removeClient sendNone 100 g st' "r" "bob" = none := by
        intro st' h'
        exact (ih g (by omega) st' h').2.1
      have hRA : ∀ st' : ManagerState, mapGet st'.rooms "r" = some roomAB →
          removeClient sendNone 100 g st' "r" "alice" = none := by
        intro st' h'
        exact (ih g (by omega) st' h').1
      have hBA : broadcastToRoom sendNone 100 g st "r" (ulMsg "alice")
          (some "alice") = none := by
        match g with
        | 0 => rfl
        | g' + 1 =>
          have hloop : broadcastLoop sendNone 100 g'
              { st with serializations := st.serializations + 1 } "r"
              (roomAB.clients.map Prod.fst) (stringify (ulMsg "alice"))
              (some "alice") = none :=
            (ih g' (by omega) { st with serializations := st.serializations + 1 } h).2.2.1
          simp only [broadcastToRoom_succ, h]
          exact hloop
      have hBB : broadcastToRoom sendNone 100 g st "r" (ulMsg "bob")
          (some "bob") = none := by
        match g with
        | 0 => rfl
        | g' + 1 =>
          have hloop : broadcastLoop sendNone 100 g'
              { st with serializations := st.serializations + 1 } "r"
              (roomAB.clients.map Prod.fst) (stringify (ulMsg "bob"))
              (some "bob") = none :=
            (ih g' (by omega) { st with serializations := st.serializations + 1 } h).2.2.2.2
          simp only [broadcastToRoom_succ, h]
          exact hloop
      refine ⟨?_, ?_, ?_, ?_, ?_⟩
      · simp only [removeClient_succ, h]
        have := hBA
        simp only [ulMsg] at this
        simp only [this]
      · simp only [removeClient_succ, h]
        have := hBB
        simp only [ulMsg] at this
        simp only [this]
      · simp only [broadcastLoop_succ, h]
        have hget : mapGet roomAB.clients "alice" = some clientA := by decide
        have hss : shouldSend (some "alice") clientA = false := by decide
        simp only [hget, hss, Bool.false_eq_true, if_false]
        exact hL2 st h
      · simp only [broadcastLoop_succ, h]
        have hget : mapGet roomAB.clients "bob" = some clientB := by decide
        have hss : shouldSend (some "alice") clientB = true := by decide
        have hsend : sendNone clientB.ws.id = false := by decide
        simp only [hget, hss, if_true, hsend, Bool.false_eq_true, if_false]
        have : clientB.userId = "bob" := by decide
        rw [this, hRB st h]
      · simp only [broadcastLoop_succ, h]
        have hget : mapGet roomAB.clients "alice" = some clientA := by decide
        have hss : shouldSend (some "bob") clientA = true := by decide
        have hsend : sendNone clientA.ws.id = false := by decide
        simp only [hget, hss, if_true, hsend, Bool.false_eq_true, if_false]
        have : clientA.userId = "alice" := by decide
        rw [this, hRA st h]

/-- The broadcast never completes, whatever the recursion budget. -/
def broadcastNeverCompletes (st : ManagerState) (roomId : String)
    (msg : WebSocketMessage) (exclude : Option String) : Prop :=
  ∀ fuel, broadcastToRoom sendNone 100 fuel st roomId msg exclude = none

/-- Claim C3 counterexample.  Failing input: room `"r"` with the two members
`alice` and `bob`, both sockets `OPEN` but both sends throwing.  The claim
says a failing member is removed and delivery to the rest continues with no
error; instead `broadcastToRoom` and `removeClient` recurse into each other
forever (modelled as exhausting every fuel bound — in the real runtime a
stack overflow is raised to the caller), no member is removed and nothing is
delivered. -/
theorem claim_C3_counterexample :
    broadcastNeverCompletes stAliceBob "r" updFromAlice none := by
  intro fuel
  match fuel with
  | 0 => rfl
  | g + 1 =>
    have h : mapGet stAliceBob.rooms "r" = some roomAB := by decide
    simp only [broadcastToRoom_succ, h]
    match g with
    | 0 => rfl
    | g' + 1 =>
      have h' : mapGet ({ stAliceBob with
          serializations := stAliceBob.serializations + 1 } : ManagerState).rooms "r"
          = some roomAB := by decide
      simp only [broadcastLoop_succ]
      have hkeys : roomAB.clients.map Prod.fst = ["alice", "bob"] := by decide
      simp only [hkeys, h']
      have hget : mapGet roomAB.clients "alice" = some clientA := by decide
      have hss : shouldSend none clientA = true := by decide
      have hsend : sendNone clientA.ws.id = false := by decide
      simp only [hget, hss, if_true, hsend, Bool.false_eq_true, if_false]
      have huid : clientA.userId = "alice" := by decide
      rw [huid,
        (twoDeadPeersAux g' { stAliceBob with
          serializations := stAliceBob.serializations + 1 } h').1]

/-! ### Characterization of a broadcast in which every attempted send succeeds -/

/-- The per-entry effect of a fully successful broadcast visit: an open,
non-excluded client has its `lastSeen` refreshed, every other entry is left
alone. -/
def refreshEntry (now : Nat) (exclude : Option String)
    (p : String × RoomClient) : String × RoomClient :=
  if shouldSend exclude p.2 then (p.1, { p.2 with lastSeen := now }) else p

/-- `refreshEntry` applied to the entries whose key lies in `keys`. -/
def refreshOn (now : Nat) (exclude : Option String) (keys : List String)
    (clients : List (String × RoomClient)) : List (String × RoomClient) :=
  clients.map (fun p => if p.1 ∈ keys then refreshEntry now exclude p else p)

/-- The send events produced by visiting `keys` over the client map
`clients`, in visit order. -/
def sendEventsOn (messageStr : String) (exclude : Option String)
    (clients : List (String × RoomClient)) (keys : List String) : List Event :=
  keys.filterMap (fun k =>
    match mapGet clients k with
    | none => none
    | some c =>
      if shouldSend exclude c then some (Event.sent c.ws.id messageStr) else none)

/-- The send events of a full sweep over `clients`. -/
def sendEvents (messageStr : String) (exclude : Option String)
    (clients : List (String × RoomClient)) : List Event :=
  clients.filterMap (fun p =>
    if shouldSend exclude p.2 then some (Event.sent p.2.ws.id messageStr) else none)

theorem nodup_cons_keys {α : Type} {k1 : String} {c1 : α}
    {rest : List (String × α)}
    (hnd : (((k1, c1) :: rest).map Prod.fst).Nodup) :
    k1 ∉ rest.map Prod.fst ∧ (rest.map Prod.fst).Nodup := by
  rw [List.map_cons, List.nodup_cons] at hnd
  exact hnd

theorem keys_mapSet {C : List (String × RoomClient)} {k : String}
    {c : RoomClient} (v : RoomClient) (h : mapGet C k = some c) :
    (mapSet C k v).map Prod.fst = C.map Prod.fst := by
  induction C with
  | nil => simp [mapGet] at h
  | cons p rest ih =>
    obtain ⟨k1, c1⟩ := p
    by_cases hk : k1 = k
    · subst hk
      simp [mapSet]
    · simp [mapGet, hk] at h
      simp [mapSet, hk, ih h]

theorem mapGet_of_mem_nodup {α : Type} {C : List (String × α)}
    {p : String × α} (hnd : (C.map Prod.fst).Nodup) (hp : p ∈ C) :
    mapGet C p.1 = some p.2 := by
  induction C with
  | nil => simp at hp
  | cons q rest ih =>
    obtain ⟨k1, c1⟩ := q
    obtain ⟨hnd1, hnd2⟩ := nodup_cons_keys hnd
    rcases List.mem_cons.1 hp with h1 | h1
    · subst h1
      simp [mapGet]
    · have hne : k1 ≠ p.1 := by
        intro hc
        exact hnd1 (hc ▸ List.mem_map.2 ⟨p, h1, rfl⟩)
      simp only [mapGet, if_neg hne]
      exact ih hnd2 h1

theorem refreshOn_nil (now : Nat) (exclude : Option String)
    (C : List (String × RoomClient)) : refreshOn now exclude [] C = C := by
  simp [refreshOn]

theorem refreshOn_skip_head (now : Nat) (exclude : Option String) (k : String)
    (ks : List String) (C : List (String × RoomClient))
    (h : k ∉ C.map Prod.fst) :
    refreshOn now exclude (k :: ks) C = refreshOn now exclude ks C := by
  unfold refreshOn
  apply List.map_congr_left
  intro p hp
  have hne : p.1 ≠ k := by
    intro hc
    exact h (List.mem_map.2 ⟨p, hp, hc⟩)
  simp [List.mem_cons, hne]

theorem refreshOn_cons_send (now : Nat) (exclude : Option String) (k : String)
    (ks : List String) (C : List (String × RoomClient)) (c : RoomClient)
    (hnd : (C.map Prod.fst).Nodup) (hget : mapGet C k = some c)
    (hss : shouldSend exclude c = true) (hks : k ∉ ks) :
    refreshOn now exclude ks (mapSet C k { c with lastSeen := now })
      = refreshOn now exclude (k :: ks) C := by
  induction C with
  | nil => simp [mapGet] at hget
  | cons p rest ih =>
    obtain ⟨k1, c1⟩ := p
    obtain ⟨hnd1, hnd2⟩ := nodup_cons_keys hnd
    by_cases hk : k1 = k
    · subst hk
      have hc1 : c1 = c := by
        simpa [mapGet] using hget
      subst hc1
      have hms : mapSet ((k1, c1) :: rest) k1 { c1 with lastSeen := now }
          = (k1, { c1 with lastSeen := now }) :: rest := by
        simp [mapSet]
      rw [hms]
      unfold refreshOn
      rw [List.map_cons, List.map_cons]
      have hLhead : (if ((k1, ({ c1 with lastSeen := now } : RoomClient))).1 ∈ ks
          then refreshEntry now exclude (k1, { c1 with lastSeen := now })
          else (k1, { c1 with lastSeen := now }))
          = (k1, { c1 with lastSeen := now }) := by
        exact if_neg hks
      have hRhead : (if ((k1, c1)).1 ∈ k1 :: ks
          then refreshEntry now exclude (k1, c1) else (k1, c1))
          = (k1, { c1 with lastSeen := now }) := by
        rw [if_pos (List.mem_cons_self _ _)]
        simp [refreshEntry, hss]
      rw [hLhead, hRhead]
      congr 1
      apply List.map_congr_left
      intro p hp
      have hne : p.1 ≠ k1 := by
        intro hc
        exact hnd1 (List.mem_map.2 ⟨p, hp, hc⟩)
      simp [List.mem_cons, hne]
    · have hget2 : mapGet rest k = some c := by
        simpa [mapGet, hk] using hget
      simp only [mapSet, if_neg hk, refreshOn, List.map_cons]
      have htail := ih hnd2 hget2
      simp only [refreshOn] at htail
      rw [htail]
      congr 1
      by_cases hmem : k1 ∈ ks
      · rw [if_pos hmem, if_pos (List.mem_cons_of_mem _ hmem)]
      · rw [if_neg hmem, if_neg (by simp [List.mem_cons, hk, hmem])]

theorem refreshOn_cons_noSend (now : Nat) (exclude : Option String)
    (k : String) (ks : List String) (C : List (String × RoomClient))
    (c : RoomClient) (hnd : (C.map Prod.fst).Nodup)
    (hget : mapGet C k = some c) (hss : shouldSend exclude c = false) :
    refreshOn now exclude (k :: ks) C = refreshOn now exclude ks C := by
  unfold refreshOn
  apply List.map_congr_left
  intro p hp
  by_cases hpk : p.1 = k
  · have hpget : mapGet C p.1 = some p.2 := mapGet_of_mem_nodup hnd hp
    rw [hpk, hget] at hpget
    have hpc : p.2 = c := by
      injection hpget.symm
    have h1 : refreshEntry now exclude p = p := by
      simp [refreshEntry, hpc, hss]
    simp [h1]
  · simp [List.mem_cons, hpk]

theorem sendEventsOn_congr (messageStr : String) (exclude : Option String)
    {C1 C2 : List (String × RoomClient)} (ks : List String)
    (h : ∀ k ∈ ks, mapGet C1 k = mapGet C2 k) :
    sendEventsOn messageStr exclude C1 ks = sendEventsOn messageStr exclude C2 ks := by
  unfold sendEventsOn
  apply List.filterMap_congr
  intro k hk
  rw [h k hk]

theorem mapSet_get_self {α : Type} {C : List (String × α)} {k : String}
    {v : α} (h : mapGet C k = some v) : mapSet C k v = C := by
  induction C with
  | nil => simp [mapGet] at h
  | cons p rest ih =>
    obtain ⟨k1, c1⟩ := p
    by_cases hk : k1 = k
    · subst hk
      have : c1 = v := by simpa [mapGet] using h
      subst this
      simp [mapSet]
    · have h2 : mapGet rest k = some v := by simpa [mapGet, hk] using h
      simp [mapSet, hk, ih h2]

/-- Full characterization of the `forEach` loop of `broadcastToRoom` when
every send attempted along the way succeeds: each open, non-excluded client
among `keys` has its `lastSeen` refreshed and receives `messageStr`, and
nothing else changes. -/
theorem broadcastLoop_allOk (sendOk : Nat → Bool) (now : Nat) :
    ∀ (keys : List String) (f : Nat) (st : ManagerState) (roomId : String)
      (room : Room) (messageStr : String) (exclude : Option String),
    mapGet st.rooms roomId = some room →
    keys.Nodup →
    (∀ k ∈ keys, k ∈ room.clients.map Prod.fst) →
    (room.clients.map Prod.fst).Nodup →
    (∀ p ∈ room.clients, shouldSend exclude p.2 = true → sendOk p.2.ws.id = true) →
    broadcastLoop sendOk now (f + keys.length + 1) st roomId keys messageStr exclude
      = some { st with
          rooms := mapSet st.rooms roomId
            { room with clients := refreshOn now exclude keys room.clients },
          events := (sendEventsOn messageStr exclude room.clients keys).reverse
                      ++ st.events } := by
  intro keys
  induction keys with
  | nil =>
    intro f st roomId room messageStr exclude h hnd hsub hcnd hok
    rw [show f + ([] : List String).length + 1 = f + 1 from rfl]
    rw [broadcastLoop_succ]
    rw [refreshOn_nil]
    have hroom : ({ room with clients := room.clients } : Room) = room := rfl
    rw [hroom, mapSet_get_self h]
    have hev : sendEventsOn messageStr exclude room.clients [] = [] := rfl
    rw [hev]
    rfl
  | cons k ks ih =>
    intro f st roomId room messageStr exclude h hnd hsub hcnd hok
    obtain ⟨hknotin, hndks⟩ := List.nodup_cons.1 hnd
    have hkmem : k ∈ room.clients.map Prod.fst := hsub k (List.mem_cons_self _ _)
    obtain ⟨c, hc⟩ := mapGet_of_mem_keys hkmem
    rw [show f + (k :: ks).length + 1 = (f + (k :: ks).length) + 1 from rfl]
    rw [broadcastLoop_succ]
    simp only [h, hc]
    by_cases hss : shouldSend exclude c = true
    · have hsend : sendOk c.ws.id = true := hok (k, c) (mapGet_some_mem hc) hss
      simp only [hss, if_true, hsend]
      set c2 : RoomClient := { c with lastSeen := now } with hc2
      set room2 : Room := { room with clients := mapSet room.clients k c2 } with hroom2
      set st2 : ManagerState :=
        { st with
          rooms := mapSet st.rooms roomId room2,
          events := Event.sent c.ws.id messageStr :: st.events } with hst2
      have h2 : mapGet st2.rooms roomId = some room2 := by
        rw [hst2]
        exact mapGet_mapSet_self _ _ _
      have hkeyseq : room2.clients.map Prod.fst = room.clients.map Prod.fst := by
        rw [hroom2]
        exact keys_mapSet c2 hc
      have hsub2 : ∀ k' ∈ ks, k' ∈ room2.clients.map Prod.fst := by
        intro k' hk'
        rw [hkeyseq]
        exact hsub k' (List.mem_cons_of_mem _ hk')
      have hcnd2 : (room2.clients.map Prod.fst).Nodup := by
        rw [hkeyseq]; exact hcnd
      have hok2 : ∀ p ∈ room2.clients, shouldSend exclude p.2 = true →
          sendOk p.2.ws.id = true := by
        intro p hp hps
        rcases mem_mapSet hp with hmem | hmem
        · exact hok p hmem hps
        · rw [hmem]
          exact hsend
      have hnext := ih f st2 roomId room2 messageStr exclude h2 hndks hsub2 hcnd2 hok2
      rw [show f + (k :: ks).length = f + ks.length + 1 from rfl, hnext]
      congr 1
      have hclients : refreshOn now exclude ks room2.clients
          = refreshOn now exclude (k :: ks) room.clients := by
        rw [hroom2]
        exact refreshOn_cons_send now exclude k ks room.clients c hcnd hc hss hknotin
      have hevents : sendEventsOn messageStr exclude room2.clients ks
          = sendEventsOn messageStr exclude room.clients ks := by
        apply sendEventsOn_congr
        intro k' hk'
        rw [hroom2]
        exact mapGet_mapSet_ne _ _ _ _ (fun hc' => hknotin (hc' ▸ hk'))
      have heventsCons : sendEventsOn messageStr exclude room.clients (k :: ks)
          = Event.sent c.ws.id messageStr :: sendEventsOn messageStr exclude room.clients ks := by
        unfold sendEventsOn
        rw [List.filterMap_cons]
        simp [hc, hss]
      rw [hclients, hevents, heventsCons, List.reverse_cons, List.append_assoc]
      have hrooms : mapSet st2.rooms roomId
          ({ room2 with clients := refreshOn now exclude (k :: ks) room.clients } : Room)
          = mapSet st.rooms roomId
            ({ room with clients := refreshOn now exclude (k :: ks) room.clients } : Room) := by
        rw [hst2]
        have : ({ room2 with clients := refreshOn now exclude (k :: ks) room.clients } : Room)
            = ({ room with clients := refreshOn now exclude (k :: ks) room.clients } : Room) := by
          rw [hroom2]
        rw [this]
        exact mapSet_mapSet _ _ _ _
      rw [hrooms]
      rfl
    · have hssf : shouldSend exclude c = false := by
        simpa using hss
      simp only [hssf, Bool.false_eq_true, if_false]
      have hnext := ih f st roomId room messageStr exclude h hndks
        (fun k' hk' => hsub k' (List.mem_cons_of_mem _ hk')) hcnd hok
      rw [show f + (k :: ks).length = f + ks.length + 1 from rfl, hnext]
      congr 1
      have hclients : refreshOn now exclude (k :: ks) room.clients
          = refreshOn now exclude ks room.clients :=
        refreshOn_cons_noSend now exclude k ks room.clients c hcnd hc hssf
      have heventsCons : sendEventsOn messageStr exclude room.clients (k :: ks)
          = sendEventsOn messageStr exclude room.clients ks := by
        unfold sendEventsOn
        rw [List.filterMap_cons]
        simp [hc, hssf]
      rw [hclients, heventsCons]

theorem refreshOn_self (now : Nat) (exclude : Option String)
    (C : List (String × RoomClient)) :
    refreshOn now exclude (C.map Prod.fst) C = C.map (refreshEntry now exclude) := by
  unfold refreshOn
  apply List.map_congr_left
  intro p hp
  rw [if_pos (List.mem_map.2 ⟨p, hp, rfl⟩)]

theorem sendEventsOn_self (messageStr : String) (exclude : Option String)
    (C : List (String × RoomClient)) (hcnd : (C.map Prod.fst).Nodup) :
    sendEventsOn messageStr exclude C (C.map Prod.fst)
      = sendEvents messageStr exclude C := by
  induction C with
  | nil => rfl
  | cons p rest ih =>
    obtain ⟨k1, c1⟩ := p
    obtain ⟨hnd1, hnd2⟩ := nodup_cons_keys hcnd
    have hhead : mapGet ((k1, c1) :: rest) k1 = some c1 := by simp [mapGet]
    unfold sendEventsOn sendEvents
    rw [List.map_cons, List.filterMap_cons, List.filterMap_cons]
    dsimp only
    have htail : sendEventsOn messageStr exclude ((k1, c1) :: rest) (rest.map Prod.fst)
        = sendEventsOn messageStr exclude rest (rest.map Prod.fst) := by
      apply sendEventsOn_congr
      intro k' hk'
      have hne : k1 ≠ k' := by
        intro hc
        exact hnd1 (hc ▸ hk')
      simp [mapGet, hne]
    unfold sendEventsOn at htail
    rw [hhead, htail]
    have ih2 := ih hnd2
    unfold sendEventsOn sendEvents at ih2
    by_cases hss : shouldSend exclude c1 = true
    · simp [hss, ih2]
    · have hf : shouldSend exclude c1 = false := by simpa using hss
      simp [hf, ih2]

/-- Full characterization of `broadcastToRoom` when every attempted send
succeeds: the message is serialized once, the identical bytes are delivered
to exactly the open, non-excluded members (whose `lastSeen` is refreshed),
and nothing else changes. -/
theorem broadcastToRoom_allOk (sendOk : Nat → Bool) (now : Nat) (f : Nat)
    (st : ManagerState) (roomId : String) (room : Room)
    (msg : WebSocketMessage) (exclude : Option String)
    (h : mapGet st.rooms roomId = some room)
    (hcnd : (room.clients.map Prod.fst).Nodup)
    (hok : ∀ p ∈ room.clients, shouldSend exclude p.2 = true →
      sendOk p.2.ws.id = true) :
    broadcastToRoom sendOk now (f + room.clients.length + 2) st roomId msg exclude
      = some { st with
          serializations := st.serializations + 1,
          rooms := mapSet st.rooms roomId
            { room with clients := room.clients.map (refreshEntry now exclude) },
          events := (sendEvents (stringify msg) exclude room.clients).reverse
                      ++ st.events } := by
  rw [show f + room.clients.length + 2 = (f + room.clients.length + 1) + 1 from rfl]
  rw [broadcastToRoom_succ]
  simp only [h]
  have hlen : f + room.clients.length + 1
      = f + (room.clients.map Prod.fst).length + 1 := by
    rw [List.length_map]
  rw [hlen]
  have hloop := broadcastLoop_allOk sendOk now (room.clients.map Prod.fst) f
    { st with serializations := st.serializations + 1 } roomId room
    (stringify msg) exclude h hcnd (fun k hk => hk) hcnd hok
  rw [hloop, refreshOn_self, sendEventsOn_self _ _ _ hcnd]

/-- Lookup into a pointwise-refreshed client map. -/
theorem refreshEntry_mk (now : Nat) (exclude : Option String) (k1 : String)
    (c1 : RoomClient) :
    refreshEntry now exclude (k1, c1)
      = (k1, if shouldSend exclude c1 then { c1 with lastSeen := now } else c1) := by
  by_cases hss : shouldSend exclude c1 = true
  · simp [refreshEntry, hss]
  · have hf : shouldSend exclude c1 = false := by simpa using hss
    simp [refreshEntry, hf]

theorem mapGet_map_refresh (now : Nat) (exclude : Option String)
    (C : List (String × RoomClient)) (k : String) :
    mapGet (C.map (refreshEntry now exclude)) k
      = Option.map (fun c => if shouldSend exclude c then { c with lastSeen := now } else c)
          (mapGet C k) := by
  induction C with
  | nil => rfl
  | cons p rest ih =>
    obtain ⟨k1, c1⟩ := p
    rw [List.map_cons, refreshEntry_mk]
    by_cases hk : k1 = k
    · subst hk
      simp [mapGet]
    · simp [mapGet, hk, ih]

theorem keys_map_refresh (now : Nat) (exclude : Option String)
    (C : List (String × RoomClient)) :
    (C.map (refreshEntry now exclude)).map Prod.fst = C.map Prod.fst := by
  induction C with
  | nil => rfl
  | cons p rest ih =>
    obtain ⟨k1, c1⟩ := p
    rw [List.map_cons, refreshEntry_mk]
    simp [ih]

theorem mem_sendEvents (messageStr : String) (exclude : Option String)
    {C : List (String × RoomClient)} {p : String × RoomClient} (hp : p ∈ C)
    (hss : shouldSend exclude p.2 = true) :
    Event.sent p.2.ws.id messageStr ∈ sendEvents messageStr exclude C := by
  unfold sendEvents
  rw [List.mem_filterMap]
  exact ⟨p, hp, by simp [hss]⟩

/-- The state `removeClient` produces when the room exists and every send of
its `user_left` broadcast succeeds. -/
def removeClientResult (now : Nat) (st : ManagerState) (roomId uid : String)
    (room : Room) : ManagerState :=
  let refreshed := room.clients.map (refreshEntry now (some uid))
  let ul : WebSocketMessage :=
    { type := MsgType.user_left, userId := uid, timestamp := now,
      particles := none, color := none }
  let st2 : ManagerState :=
    { st with
      serializations := st.serializations + 1,
      rooms := mapSet st.rooms roomId { room with clients := refreshed },
      events := (sendEvents (stringify ul) (some uid) room.clients).reverse ++ st.events,
      pingIntervals := st.pingIntervals.filter (fun k => k ≠ roomId ++ "-" ++ uid) }
  if mapHas refreshed uid then
    let clients2 := mapDelete refreshed uid
    if clients2.isEmpty then { st2 with rooms := mapDelete st2.rooms roomId }
    else { st2 with rooms := mapSet st2.rooms roomId { room with clients := clients2 } }
  else st2

theorem removeClient_allOk (sendOk : Nat → Bool) (now : Nat) (f : Nat)
    (st : ManagerState) (roomId uid : String) (room : Room)
    (h : mapGet st.rooms roomId = some room)
    (hcnd : (room.clients.map Prod.fst).Nodup)
    (hok : ∀ p ∈ room.clients, shouldSend (some uid) p.2 = true →
      sendOk p.2.ws.id = true) :
    removeClient sendOk now (f + room.clients.length + 3) st roomId uid
      = some (removeClientResult now st roomId uid room) := by
  rw [show f + room.clients.length + 3 = (f + room.clients.length + 2) + 1 from rfl]
  rw [removeClient_succ]
  simp only [h]
  rw [broadcastToRoom_allOk sendOk now f st roomId room _ (some uid) h hcnd hok]
  simp only [mapGet_mapSet_self]
  unfold removeClientResult
  dsimp only
  split_ifs <;> rfl

/-- Claim C10.  During a broadcast in which the attempted sends succeed,
every open, non-excluded member is delivered the serialized message and — as
a side effect of the successful send — has its `lastSeen` set to the current
time, so a cleanup sweep running at any `t` within `CLIENT_TIMEOUT` of `now`
no longer sees it as expired (its eviction is deferred), even though the
member sent no inbound traffic. -/
theorem claim_C10 (sendOk : Nat → Bool) (now : Nat) (f : Nat)
    (st : ManagerState) (roomId : String) (room : Room)
    (msg : WebSocketMessage) (exclude : Option String) (k : String)
    (c : RoomClient)
    (h : mapGet st.rooms roomId = some room)
    (hcnd : (room.clients.map Prod.fst).Nodup)
    (hok : ∀ p ∈ room.clients, shouldSend exclude p.2 = true →
      sendOk p.2.ws.id = true)
    (hc : mapGet room.clients k = some c)
    (hss : shouldSend exclude c = true) :
    ∃ st' room',
      broadcastToRoom sendOk now (f + room.clients.length + 2) st roomId msg exclude
        = some st' ∧
      mapGet st'.rooms roomId = some room' ∧
      mapGet room'.clients k = some { c with lastSeen := now } ∧
      Event.sent c.ws.id (stringify msg) ∈ st'.events ∧
      ∀ t, t ≤ now + CLIENT_TIMEOUT → ¬ (t - now > CLIENT_TIMEOUT) := by
  refine ⟨_, { room with clients := room.clients.map (refreshEntry now exclude) },
    broadcastToRoom_allOk sendOk now f st roomId room msg exclude h hcnd hok,
    mapGet_mapSet_self _ _ _, ?_, ?_, ?_⟩
  · show mapGet (room.clients.map (refreshEntry now exclude)) k
      = some { c with lastSeen := now }
    rw [mapGet_map_refresh, hc]
    simp [hss]
  · show Event.sent c.ws.id (stringify msg)
      ∈ (sendEvents (stringify msg) exclude room.clients).reverse ++ st.events
    apply List.mem_append_left
    rw [List.mem_reverse]
    exact mem_sendEvents (stringify msg) exclude (mapGet_some_mem hc) hss
  · intro t ht
    unfold CLIENT_TIMEOUT at ht ⊢
    omega

/-! ### Claim C2: no room with zero members survives an operation -/

/-- The registry invariant: every registered room has at least one client. -/
def NoEmptyRooms (st : ManagerState) : Prop :=
  ∀ p ∈ st.rooms, p.2.clients ≠ []

instance (st : ManagerState) : Decidable (NoEmptyRooms st) :=
  inferInstanceAs (Decidable (∀ p ∈ st.rooms, p.2.clients ≠ []))

theorem isEmpty_false_ne_nil {α : Type} {l : List α}
    (h : l.isEmpty = false) : l ≠ [] := by
  intro hc
  subst hc
  simp at h

/-- `removeClient`, `broadcastToRoom` and the broadcast loop preserve the
no-empty-room invariant: the only places membership shrinks re-check the
`clients.size === 0` condition and delete the room synchronously. -/
theorem mgr_noEmptyRooms : ∀ f : Nat,
    (∀ (sendOk : Nat → Bool) (now : Nat) (st : ManagerState)
       (roomId uid : String) (st' : ManagerState),
       NoEmptyRooms st → removeClient sendOk now f st roomId uid = some st' →
       NoEmptyRooms st') ∧
    (∀ (sendOk : Nat → Bool) (now : Nat) (st : ManagerState) (roomId : String)
       (msg : WebSocketMessage) (exclude : Option String) (st' : ManagerState),
       NoEmptyRooms st → broadcastToRoom sendOk now f st roomId msg exclude = some st' →
       NoEmptyRooms st') ∧
    (∀ (sendOk : Nat → Bool) (now : Nat) (st : ManagerState) (roomId : String)
       (keys : List String) (messageStr : String) (exclude : Option String)
       (st' : ManagerState),
       NoEmptyRooms st → broadcastLoop sendOk now f st roomId keys messageStr exclude = some st' →
       NoEmptyRooms st') := by
  intro f
  induction f with
  | zero =>
    refine ⟨?_, ?_, ?_⟩
    · intro _ _ _ _ _ _ _ heq
      rw [removeClient_zero] at heq
      simp at heq
    · intro _ _ _ _ _ _ _ _ heq
      rw [broadcastToRoom_zero] at heq
      simp at heq
    · intro _ _ _ _ _ _ _ _ _ heq
      rw [broadcastLoop_zero] at heq
      simp at heq
  | succ f ih =>
    obtain ⟨ihR, ihB, ihL⟩ := ih
    refine ⟨?_, ?_, ?_⟩
    · intro sendOk now st roomId uid st' hne heq
      rcases hr : mapGet st.rooms roomId with _ | room0
      · simp only [removeClient_succ, hr, Option.some.injEq] at heq
        subst heq
        exact hne
      · simp only [removeClient_succ, hr] at heq
        rcases hb : broadcastToRoom sendOk now f st roomId
            { type := MsgType.user_left, userId := uid, timestamp := now,
              particles := none, color := none } (some uid) with _ | st1
        · rw [hb] at heq
          simp at heq
        · rw [hb] at heq
          have hne1 : NoEmptyRooms st1 := ihB sendOk now st roomId _ _ st1 hne hb
          rcases hr2 : mapGet st1.rooms roomId with _ | room2
          · simp only [hr2, Option.some.injEq] at heq
            subst heq
            intro p hp
            exact hne1 p hp
          · simp only [hr2] at heq
            cases hhas : mapHas room2.clients uid with
            | false =>
              simp only [hhas, Bool.false_eq_true, if_false, Option.some.injEq] at heq
              subst heq
              intro p hp
              exact hne1 p hp
            | true =>
              cases hemp : (mapDelete room2.clients uid).isEmpty with
              | true =>
                simp only [hhas, if_true, hemp, Option.some.injEq] at heq
                subst heq
                intro p hp
                exact hne1 p (mem_mapDelete hp)
              | false =>
                simp only [hhas, if_true, hemp, Bool.false_eq_true, if_false,
                  Option.some.injEq] at heq
                subst heq
                intro p hp
                rcases mem_mapSet hp with hmem | hmem
                · exact hne1 p hmem
                · rw [hmem]
                  exact isEmpty_false_ne_nil hemp
    · intro sendOk now st roomId msg exclude st' hne heq
      rcases hr : mapGet st.rooms roomId with _ | room
      · simp only [broadcastToRoom_succ, hr, Option.some.injEq] at heq
        subst heq
        exact hne
      · simp only [broadcastToRoom_succ, hr] at heq
        exact ihL sendOk now
          { st with serializations := st.serializations + 1 } roomId _ _ exclude
          st' (fun p hp => hne p hp) heq
    · intro sendOk now st roomId keys messageStr exclude st' hne heq
      match keys with
      | [] =>
        simp only [broadcastLoop_succ, Option.some.injEq] at heq
        subst heq
        exact hne
      | k :: ks =>
        rcases hr : mapGet st.rooms roomId with _ | room
        · simp only [broadcastLoop_succ, hr, Option.some.injEq] at heq
          subst heq
          exact hne
        · simp only [broadcastLoop_succ, hr] at heq
          rcases hc : mapGet room.clients k with _ | client
          · simp only [hc] at heq
            exact ihL sendOk now st roomId ks messageStr exclude st' hne heq
          · simp only [hc] at heq
            cases hss : shouldSend exclude client with
            | false =>
              simp only [hss, Bool.false_eq_true, if_false] at heq
              exact ihL sendOk now st roomId ks messageStr exclude st' hne heq
            | true =>
              cases hsend : sendOk client.ws.id with
              | true =>
                simp only [hss, if_true, hsend] at heq
                refine ihL sendOk now _ roomId ks messageStr exclude st' ?_ heq
                intro p hp
                rcases mem_mapSet hp with hmem | hmem
                · exact hne p hmem
                · rw [hmem]
                  exact mapSet_ne_nil _ _ _
              | false =>
                simp only [hss, if_true, hsend, Bool.false_eq_true, if_false] at heq
                rcases hrm : removeClient sendOk now f st roomId client.userId
                    with _ | st2
                · rw [hrm] at heq
                  simp at heq
                · rw [hrm] at heq
                  have hne2 : NoEmptyRooms st2 :=
                    ihR sendOk now st roomId client.userId st2 hne hrm
                  exact ihL sendOk now st2 roomId ks messageStr exclude st' hne2 heq

theorem cleanupClientsLoop_noEmptyRooms (sendOk : Nat → Bool) (now : Nat) :
    ∀ (f : Nat) (st : ManagerState) (roomId : String) (uids : List String)
      (st' : ManagerState), NoEmptyRooms st →
      cleanupClientsLoop sendOk now f st roomId uids = some st' →
      NoEmptyRooms st' := by
  intro f
  induction f with
  | zero =>
    intro st roomId uids st' hne heq
    simp [cleanupClientsLoop] at heq
  | succ f ih =>
    intro st roomId uids st' hne heq
    match uids with
    | [] =>
      simp only [cleanupClientsLoop, Option.some.injEq] at heq
      subst heq
      exact hne
    | uid :: rest =>
      rcases hr : mapGet st.rooms roomId with _ | room
      · simp only [cleanupClientsLoop, hr, Option.some.injEq] at heq
        subst heq
        exact hne
      · simp only [cleanupClientsLoop, hr] at heq
        rcases hc : mapGet room.clients uid with _ | client
        · simp only [hc] at heq
          exact ih st roomId rest st' hne heq
        · simp only [hc] at heq
          by_cases hexp : now - client.lastSeen > CLIENT_TIMEOUT
          · simp only [if_pos hexp] at heq
            rcases hrm : removeClient sendOk now f st roomId uid with _ | st2
            · rw [hrm] at heq
              simp at heq
            · rw [hrm] at heq
              have hne2 : NoEmptyRooms st2 :=
                (mgr_noEmptyRooms f).1 sendOk now st roomId uid st2 hne hrm
              exact ih st2 roomId rest st' hne2 heq
          · simp only [if_neg hexp] at heq
            exact ih st roomId rest st' hne heq

theorem cleanupRoomsLoop_noEmptyRooms (sendOk : Nat → Bool) (now : Nat) :
    ∀ (f : Nat) (st : ManagerState) (roomIds : List String)
      (st' : ManagerState), NoEmptyRooms st →
      cleanupRoomsLoop sendOk now f st roomIds = some st' →
      NoEmptyRooms st' := by
  intro f
  induction f with
  | zero =>
    intro st roomIds st' hne heq
    simp [cleanupRoomsLoop] at heq
  | succ f ih =>
    intro st roomIds st' hne heq
    match roomIds with
    | [] =>
      simp only [cleanupRoomsLoop, Option.some.injEq] at heq
      subst heq
      exact hne
    | rid :: rest =>
      rcases hr : mapGet st.rooms rid with _ | room
      · simp only [cleanupRoomsLoop, hr] at heq
        exact ih st rest st' hne heq
      · simp only [cleanupRoomsLoop, hr] at heq
        by_cases hskip : now - room.lastCleanup < CLEANUP_INTERVAL
        · simp only [if_pos hskip] at heq
          exact ih st rest st' hne heq
        · simp only [if_neg hskip] at heq
          rcases hcl : cleanupClientsLoop sendOk now f st rid
              (room.clients.map Prod.fst) with _ | st2
          · rw [hcl] at heq
            simp at heq
          · rw [hcl] at heq
            have hne2 : NoEmptyRooms st2 :=
              cleanupClientsLoop_noEmptyRooms sendOk now f st rid _ st2 hne hcl
            rcases hr2 : mapGet st2.rooms rid with _ | r2
            · simp only [hr2] at heq
              exact ih st2 rest st' hne2 heq
            · simp only [hr2] at heq
              refine ih _ rest st' ?_ heq
              intro p hp
              rcases mem_mapSet hp with hmem | hmem
              · exact hne2 p hmem
              · rw [hmem]
                exact hne2 (rid, r2) (mapGet_some_mem hr2)

/-- The socket.io registry invariant. -/
def SioNoEmptyRooms (st : SioState) : Prop :=
  ∀ p ∈ st.rooms, p.2.users ≠ []

instance (st : SioState) : Decidable (SioNoEmptyRooms st) :=
  inferInstanceAs (Decidable (∀ p ∈ st.rooms, p.2.users ≠ []))

theorem mem_mapDelete_key_ne {α : Type} {m : List (String × α)} {key : String}
    {p : String × α} (h : p ∈ mapDelete m key) : p.1 ≠ key := by
  induction m with
  | nil => simp [mapDelete] at h
  | cons q rest ih =>
    obtain ⟨k, w⟩ := q
    by_cases hk : k = key
    · simp only [mapDelete, if_pos hk] at h
      exact ih h
    · simp only [mapDelete, if_neg hk, List.mem_cons] at h
      rcases h with h | h
      · rw [h]
        exact hk
      · exact ih h

theorem sioOnDisconnect_noEmptyRooms (now : Nat) (st : SioState)
    (socketId roomId : String) (hne : SioNoEmptyRooms st) :
    SioNoEmptyRooms (sioOnDisconnect now st socketId roomId) := by
  unfold sioOnDisconnect
  rcases hu : mapGet st.socketToUser socketId with _ | uid
  · exact hne
  · dsimp only
    rcases hr : mapGet st.rooms roomId with _ | room
    · simp only [hr]
      exact fun p hp => hne p hp
    · simp only [hr, mapGet_mapSet_self]
      by_cases hemp : ({ room with users := mapDelete room.users uid } : SioRoom).users.isEmpty = true
      · simp only [hemp, if_true]
        intro p hp
        have hne2 := mem_mapDelete_key_ne hp
        rcases mem_mapSet (mem_mapDelete hp) with hmem | hmem
        · exact hne p hmem
        · exact absurd (by rw [hmem]) hne2
      · have hempf : ({ room with users := mapDelete room.users uid } : SioRoom).users.isEmpty = false := by
          simpa using hemp
        simp only [hempf, Bool.false_eq_true, if_false]
        intro p hp
        rcases mem_mapSet hp with hmem | hmem
        · exact hne p hmem
        · rw [hmem]
          exact isEmpty_false_ne_nil hempf

/-- Claim C2.  Every operation that removes members deletes a just-emptied
room from the registry synchronously: `removeClient` (used by leave,
disconnect and heartbeat eviction), the periodic cleanup sweep, and the
socket.io disconnect handler all preserve the invariant that no registered
room has zero members, so no empty room is observable after the operation
returns. -/
theorem claim_C2 :
    (∀ (sendOk : Nat → Bool) (now f : Nat) (st : ManagerState)
       (roomId uid : String) (st' : ManagerState),
       NoEmptyRooms st → removeClient sendOk now f st roomId uid = some st' →
       NoEmptyRooms st') ∧
    (∀ (sendOk : Nat → Bool) (now f : Nat) (st st' : ManagerState),
       NoEmptyRooms st → cleanupInactiveClients sendOk now f st = some st' →
       NoEmptyRooms st') ∧
    (∀ (now : Nat) (st : SioState) (socketId roomId : String),
       SioNoEmptyRooms st →
       SioNoEmptyRooms (sioOnDisconnect now st socketId roomId)) := by
  refine ⟨?_, ?_, ?_⟩
  · intro sendOk now f st roomId uid st' hne heq
    exact (mgr_noEmptyRooms f).1 sendOk now st roomId uid st' hne heq
  · intro sendOk now f st st' hne heq
    match f with
    | 0 => simp [cleanupInactiveClients] at heq
    | g + 1 =>
      simp only [cleanupInactiveClients] at heq
      exact cleanupRoomsLoop_noEmptyRooms sendOk now g st _ st' hne heq
  · intro now st socketId roomId hne
    exact sioOnDisconnect_noEmptyRooms now st socketId roomId hne

def stAfterC2 : ManagerState :=
  { rooms := [], pingIntervals := [], events := [], serializations := 1 }

theorem claim_C2_witness :
    NoEmptyRooms stOnlyU ∧
    removeClient sendAll 100 50 stOnlyU "r" "u" = some stAfterC2 ∧
    NoEmptyRooms stAfterC2 :=
  ⟨by decide, by decide,
    claim_C2.1 sendAll 100 50 stOnlyU "r" "u" stAfterC2 (by decide) (by decide)⟩

/-! ### The ws inbound pipeline on non-join frames -/

theorem wsServerOnMessage_nonJoin (sendOk : Nat → Bool) (now : Nat) (f : Nat)
    (st : ManagerState) (roomId uid : String) (ws : WS)
    (data : WebSocketMessage) (hnj : data.type ≠ MsgType.user_joined) :
    wsServerOnMessage sendOk now (f + 1) st roomId (some uid) ws data
      = match broadcastToRoom sendOk now f st roomId data (some uid) with
        | none => none
        | some st2 => some (st2, some uid) := by
  have hcond : ¬ (data.type = MsgType.user_joined ∧ data.userId ≠ "") :=
    fun hc => hnj hc.1
  show (if data.type = MsgType.user_joined ∧ data.userId ≠ "" then _ else _ :
      Option (ManagerState × Option String)) = _
  rw [if_neg hcond]

/-- The events of a fully successful `removeClient` are exactly the
`user_left` deliveries (timestamped with the server's `now`) prepended to
the previous log. -/
theorem removeClientResult_events (now : Nat) (st : ManagerState)
    (roomId uid : String) (room : Room) :
    (removeClientResult now st roomId uid room).events
      = (sendEvents (stringify
          { type := MsgType.user_left, userId := uid, timestamp := now,
            particles := none, color := none }) (some uid) room.clients).reverse
        ++ st.events := by
  unfold removeClientResult
  dsimp only
  split_ifs <;> rfl

/-- Frame property of `updateClientLastSeen`: only the addressed client's
`lastSeen` can change; the event log, ping intervals, serialization count,
every other room and every other member are untouched. -/
theorem updateClientLastSeen_frame (now : Nat) (st : ManagerState)
    (roomId uid : String) :
    (updateClientLastSeen now st roomId uid).events = st.events ∧
    (updateClientLastSeen now st roomId uid).pingIntervals = st.pingIntervals ∧
    (updateClientLastSeen now st roomId uid).serializations = st.serializations ∧
    (∀ r, r ≠ roomId →
      mapGet (updateClientLastSeen now st roomId uid).rooms r = mapGet st.rooms r) ∧
    (∀ room room' u', mapGet st.rooms roomId = some room →
      mapGet (updateClientLastSeen now st roomId uid).rooms roomId = some room' →
      u' ≠ uid → mapGet room'.clients u' = mapGet room.clients u') := by
  unfold updateClientLastSeen
  rcases hr : mapGet st.rooms roomId with _ | room0
  · simp only [hr]
    refine ⟨trivial, trivial, trivial, fun r _ => trivial, ?_⟩
    intro room room' u' hroom hroom' _
    cases hroom
  · simp only [hr]
    rcases hc : mapGet room0.clients uid with _ | c0
    · simp only [hc]
      refine ⟨trivial, trivial, trivial, fun r _ => trivial, ?_⟩
      intro room room' u' hroom hroom' _
      rw [hr] at hroom'
      injection hroom with he
      injection hroom' with he2
      subst he
      subst he2
      rfl
    · simp only [hc]
      refine ⟨trivial, trivial, trivial, ?_, ?_⟩
      · intro r hrne
        exact mapGet_mapSet_ne _ _ _ _ hrne
      · intro room room' u' hroom hroom' hu
        injection hroom with he
        rw [mapGet_mapSet_self] at hroom'
        injection hroom' with he2
        subst he
        subst he2
        exact mapGet_mapSet_ne _ _ _ _ hu

/-- Claim C6, amended.  On the ws pipeline for an identified connection (all
sends succeeding), an inbound `pong` refreshes the sender's `lastSeen` to the
receipt time, but an inbound `update` leaves the sender's client record —
`lastSeen` included — exactly as it was: only a heartbeat response counts as
liveness, payload messages do not. -/
theorem claim_C6 (sendOk : Nat → Bool) (now f : Nat) (st : ManagerState)
    (roomId uid : String) (ws : WS) (room : Room) (c : RoomClient)
    (data : WebSocketMessage)
    (h : mapGet st.rooms roomId = some room)
    (hcnd : (room.clients.map Prod.fst).Nodup)
    (hok : ∀ p ∈ room.clients, shouldSend (some uid) p.2 = true →
      sendOk p.2.ws.id = true)
    (hc : mapGet room.clients uid = some c)
    (hkey : c.userId = uid) :
    (data.type = MsgType.pong →
      ∃ st' room',
        wsInbound sendOk now (f + room.clients.length + 3) st roomId uid ws data
          = some st' ∧
        mapGet st'.rooms roomId = some room' ∧
        mapGet room'.clients uid = some { c with lastSeen := now }) ∧
    (data.type = MsgType.update →
      ∃ st' room',
        wsInbound sendOk now (f + room.clients.length + 3) st roomId uid ws data
          = some st' ∧
        mapGet st'.rooms roomId = some room' ∧
        mapGet room'.clients uid = some c) := by
  have hssc : shouldSend (some uid) c = false := by
    simp [shouldSend, hkey]
  have hstep : ∀ data' : WebSocketMessage, data'.type ≠ MsgType.user_joined →
      wsInbound sendOk now (f + room.clients.length + 3) st roomId uid ws data'
        = some (managerOnMessage now
            { st with
              serializations := st.serializations + 1,
              rooms := mapSet st.rooms roomId
                { room with clients := room.clients.map (refreshEntry now (some uid)) },
              events := (sendEvents (stringify data') (some uid) room.clients).reverse
                          ++ st.events }
            roomId uid data') := by
    intro data' hnj
    have hb := broadcastToRoom_allOk sendOk now f st roomId room data' (some uid)
      h hcnd hok
    have hws := wsServerOnMessage_nonJoin sendOk now
      (f + room.clients.length + 2) st roomId uid ws data' hnj
    rw [hb] at hws
    unfold wsInbound
    rw [show f + room.clients.length + 3 = (f + room.clients.length + 2) + 1 from rfl]
    rw [hws]
  have hcB : mapGet (room.clients.map (refreshEntry now (some uid))) uid = some c := by
    rw [mapGet_map_refresh, hc]
    simp [hssc]
  have hmgr_pong : ∀ stX : ManagerState, data.type = MsgType.pong →
      managerOnMessage now stX roomId uid data = updateClientLastSeen now stX roomId uid := by
    intro stX ht
    unfold managerOnMessage
    rw [if_pos ht]
  have hmgr_other : ∀ stX : ManagerState, data.type ≠ MsgType.pong →
      managerOnMessage now stX roomId uid data = stX := by
    intro stX ht
    unfold managerOnMessage
    rw [if_neg ht]
  constructor
  · intro htype
    have hnj : data.type ≠ MsgType.user_joined := by
      rw [htype]
      intro hcon
      cases hcon
    have hwi := hstep data hnj
    refine ⟨_,
      { id := room.id,
        clients := mapSet (room.clients.map (refreshEntry now (some uid))) uid
          { c with lastSeen := now },
        lastCleanup := room.lastCleanup }, hwi, ?_, ?_⟩
    · rw [hmgr_pong _ htype]
      unfold updateClientLastSeen
      simp only [mapGet_mapSet_self, hcB]
    · exact mapGet_mapSet_self _ _ _
  · intro htype
    have hnj : data.type ≠ MsgType.user_joined := by
      rw [htype]
      intro hcon
      cases hcon
    have hnp : data.type ≠ MsgType.pong := by
      rw [htype]
      intro hcon
      cases hcon
    have hwi := hstep data hnj
    refine ⟨_,
      { id := room.id,
        clients := room.clients.map (refreshEntry now (some uid)),
        lastCleanup := room.lastCleanup }, hwi, ?_, ?_⟩
    · rw [hmgr_other _ hnp]
      exact mapGet_mapSet_self _ _ _
    · exact hcB

/-- Claim C8, amended.  The RoomManager's own message listener reacts to a
`pong` by refreshing the sender's `lastSeen` and nothing else (frame: event
log, ping intervals, serialization count, all other rooms and all other
members are untouched), and the manager itself never constructs a pong.  But
the ws transport handler re-broadcasts an inbound pong verbatim to the other
open members of the room, so peers do receive the pong bytes (and, by the
send side effect, have their own `lastSeen` refreshed). -/
theorem claim_C8 :
    (∀ (now : Nat) (st : ManagerState) (roomId uid : String)
       (data : WebSocketMessage), data.type = MsgType.pong →
       managerOnMessage now st roomId uid data
         = updateClientLastSeen now st roomId uid) ∧
    (∀ (now : Nat) (st : ManagerState) (roomId uid : String),
       (updateClientLastSeen now st roomId uid).events = st.events ∧
       (updateClientLastSeen now st roomId uid).pingIntervals = st.pingIntervals ∧
       (updateClientLastSeen now st roomId uid).serializations = st.serializations ∧
       (∀ r, r ≠ roomId →
         mapGet (updateClientLastSeen now st roomId uid).rooms r = mapGet st.rooms r) ∧
       (∀ room room' u', mapGet st.rooms roomId = some room →
         mapGet (updateClientLastSeen now st roomId uid).rooms roomId = some room' →
         u' ≠ uid → mapGet room'.clients u' = mapGet room.clients u')) ∧
    (∀ (sendOk : Nat → Bool) (now f : Nat) (st : ManagerState)
       (roomId uid : String) (ws : WS) (room : Room) (data : WebSocketMessage)
       (p : String × RoomClient),
       mapGet st.rooms roomId = some room →
       (room.clients.map Prod.fst).Nodup →
       (∀ q ∈ room.clients, shouldSend (some uid) q.2 = true →
         sendOk q.2.ws.id = true) →
       data.type = MsgType.pong →
       p ∈ room.clients →
       shouldSend (some uid) p.2 = true →
       ∃ st',
         wsInbound sendOk now (f + room.clients.length + 3) st roomId uid ws data
           = some st' ∧
         Event.sent p.2.ws.id (stringify data) ∈ st'.events) := by
  refine ⟨?_, ?_, ?_⟩
  · intro now st roomId uid data ht
    unfold managerOnMessage
    rw [if_pos ht]
  · intro now st roomId uid
    exact updateClientLastSeen_frame now st roomId uid
  · intro sendOk now f st roomId uid ws room data p h hcnd hok htype hp hss
    have hnj : data.type ≠ MsgType.user_joined := by
      rw [htype]
      intro hcon
      cases hcon
    have hb := broadcastToRoom_allOk sendOk now f st roomId room data (some uid)
      h hcnd hok
    have hws := wsServerOnMessage_nonJoin sendOk now
      (f + room.clients.length + 2) st roomId uid ws data hnj
    rw [hb] at hws
    have hwi : wsInbound sendOk now (f + room.clients.length + 3) st roomId uid ws data
        = some (managerOnMessage now
            { st with
              serializations := st.serializations + 1,
              rooms := mapSet st.rooms roomId
                { room with clients := room.clients.map (refreshEntry now (some uid)) },
              events := (sendEvents (stringify data) (some uid) room.clients).reverse
                          ++ st.events }
            roomId uid data) := by
      unfold wsInbound
      rw [show f + room.clients.length + 3 = (f + room.clients.length + 2) + 1 from rfl]
      rw [hws]
    refine ⟨_, hwi, ?_⟩
    have hmgr : managerOnMessage now
        { st with
          serializations := st.serializations + 1,
          rooms := mapSet st.rooms roomId
            { room with clients := room.clients.map (refreshEntry now (some uid)) },
          events := (sendEvents (stringify data) (some uid) room.clients).reverse
                      ++ st.events }
        roomId uid data
        = updateClientLastSeen now
            { st with
              serializations := st.serializations + 1,
              rooms := mapSet st.rooms roomId
                { room with clients := room.clients.map (refreshEntry now (some uid)) },
              events := (sendEvents (stringify data) (some uid) room.clients).reverse
                          ++ st.events }
            roomId uid := by
      unfold managerOnMessage
      rw [if_pos htype]
    rw [hmgr]
    rw [(updateClientLastSeen_frame now _ roomId uid).1]
    apply List.mem_append_left
    rw [List.mem_reverse]
    exact mem_sendEvents (stringify data) (some uid) hp hss

/-- Claim C5, amended.  Messages the core constructs itself carry the
server's clock: a heartbeat `ping` and the `user_left` broadcast of
`removeClient` are serialized with `timestamp = now`, and the socket.io
variant's `update` re-broadcast is emitted with the receipt time.  The ws
transport handler, however, re-broadcasts the parsed inbound frame verbatim:
the bytes delivered to the other members are `stringify data`, whose
`timestamp` field is whatever the sending client put there, not the receipt
time. -/
theorem claim_C5 :
    (∀ (sendOk : Nat → Bool) (now f : Nat) (st : ManagerState)
       (roomId uid : String) (room : Room) (c : RoomClient),
       mapGet st.rooms roomId = some room →
       mapGet room.clients uid = some c →
       c.ws.readyState = ReadyState.OPEN →
       sendOk c.ws.id = true →
       pingClient sendOk now (f + 1) st roomId uid
         = some { st with events := Event.sent c.ws.id (stringify
             { type := MsgType.ping, userId := "server", timestamp := now,
               particles := none, color := none }) :: st.events }) ∧
    (∀ (sendOk : Nat → Bool) (now f : Nat) (st : ManagerState)
       (roomId uid : String) (room : Room),
       mapGet st.rooms roomId = some room →
       (room.clients.map Prod.fst).Nodup →
       (∀ p ∈ room.clients, shouldSend (some uid) p.2 = true →
         sendOk p.2.ws.id = true) →
       removeClient sendOk now (f + room.clients.length + 3) st roomId uid
         = some (removeClientResult now st roomId uid room) ∧
       ∀ p ∈ room.clients, shouldSend (some uid) p.2 = true →
         Event.sent p.2.ws.id (stringify
           { type := MsgType.user_left, userId := uid, timestamp := now,
             particles := none, color := none })
           ∈ (removeClientResult now st roomId uid room).events) ∧
    (∀ (sendOk : Nat → Bool) (now f : Nat) (st : ManagerState)
       (roomId uid : String) (ws : WS) (room : Room) (data : WebSocketMessage)
       (p : String × RoomClient),
       mapGet st.rooms roomId = some room →
       (room.clients.map Prod.fst).Nodup →
       (∀ q ∈ room.clients, shouldSend (some uid) q.2 = true →
         sendOk q.2.ws.id = true) →
       data.type = MsgType.update →
       p ∈ room.clients →
       shouldSend (some uid) p.2 = true →
       ∃ st',
         wsInbound sendOk now (f + room.clients.length + 3) st roomId uid ws data
           = some st' ∧
         Event.sent p.2.ws.id (stringify data) ∈ st'.events) ∧
    (∀ (now : Nat) (st : SioState) (roomId uid : String)
       (particles : Option (List Particle)) (color : Option Nat)
       (room : SioRoom) (user : SioUser),
       mapGet st.rooms roomId = some room →
       mapGet room.users uid = some user →
       (sioOnUpdate now st roomId uid particles color).emits
         = { roomId := roomId, type := MsgType.update, userId := uid,
             timestamp := now, particles := particles, color := color }
             :: st.emits) := by
  refine ⟨?_, ?_, ?_, ?_⟩
  · intro sendOk now f st roomId uid room c h hc hopen hsend
    simp only [pingClient, h, hc, hopen, if_pos, if_true, hsend]
  · intro sendOk now f st roomId uid room h hcnd hok
    refine ⟨removeClient_allOk sendOk now f st roomId uid room h hcnd hok, ?_⟩
    intro p hp hss
    rw [removeClientResult_events]
    apply List.mem_append_left
    rw [List.mem_reverse]
    exact mem_sendEvents _ (some uid) hp hss
  · intro sendOk now f st roomId uid ws room data p h hcnd hok htype hp hss
    have hnj : data.type ≠ MsgType.user_joined := by
      rw [htype]
      intro hcon
      cases hcon
    have hnp : data.type ≠ MsgType.pong := by
      rw [htype]
      intro hcon
      cases hcon
    have hb := broadcastToRoom_allOk sendOk now f st roomId room data (some uid)
      h hcnd hok
    have hws := wsServerOnMessage_nonJoin sendOk now
      (f + room.clients.length + 2) st roomId uid ws data hnj
    rw [hb] at hws
    have hwi : wsInbound sendOk now (f + room.clients.length + 3) st roomId uid ws data
        = some (managerOnMessage now
            { st with
              serializations := st.serializations + 1,
              rooms := mapSet st.rooms roomId
                { room with clients := room.clients.map (refreshEntry now (some uid)) },
              events := (sendEvents (stringify data) (some uid) room.clients).reverse
                          ++ st.events }
            roomId uid data) := by
      unfold wsInbound
      rw [show f + room.clients.length + 3 = (f + room.clients.length + 2) + 1 from rfl]
      rw [hws]
    refine ⟨_, hwi, ?_⟩
    have hmgr : ∀ stX : ManagerState,
        managerOnMessage now stX roomId uid data = stX := by
      intro stX
      unfold managerOnMessage
      rw [if_neg hnp]
    rw [hmgr]
    apply List.mem_append_left
    rw [List.mem_reverse]
    exact mem_sendEvents (stringify data) (some uid) hp hss
  · intro now st roomId uid particles color room user h huser
    unfold sioOnUpdate
    simp only [h, huser]

/-- Claim C9, amended.  In the socket.io server a missing (or empty) userId
or roomId drops the connection immediately and creates no room or client
state.  The ws server behaves differently: a missing or empty URL room path
is substituted by the room id `"default"`, and a connection without a userId
is not dropped — it is simply inert (non-join frames leave the registry
untouched and no state is created) until a `user_joined` frame supplies a
userId. -/
theorem claim_C9 :
    (∀ (now : Nat) (st : SioState) (socketId : String)
       (userIdQ roomIdQ : Option String),
       (sioFalsy userIdQ || sioFalsy roomIdQ) = true →
       sioOnConnection now st socketId userIdQ roomIdQ
         = { st with disconnectedSockets := socketId :: st.disconnectedSockets }) ∧
    (wsConnRoomId none = "default" ∧ wsConnRoomId (some "") = "default") ∧
    (∀ (sendOk : Nat → Bool) (now f : Nat) (st : ManagerState) (roomId : String)
       (ws : WS) (data : WebSocketMessage), data.type ≠ MsgType.user_joined →
       wsServerOnMessage sendOk now (f + 1) st roomId none ws data
         = some (st, none)) := by
  refine ⟨?_, ⟨by decide, by decide⟩, ?_⟩
  · intro now st socketId userIdQ roomIdQ hcond
    unfold sioOnConnection
    rw [if_pos hcond]
  · intro sendOk now f st roomId ws data hnj
    have hcond : ¬ (data.type = MsgType.user_joined ∧ data.userId ≠ "") :=
      fun hc => hnj hc.1
    show (if data.type = MsgType.user_joined ∧ data.userId ≠ "" then _ else _ :
        Option (ManagerState × Option String)) = _
    rw [if_neg hcond]

def pingAt100 : WebSocketMessage :=
  { type := MsgType.ping, userId := "server", timestamp := 100,
    particles := none, color := none }

theorem claim_C5_witness :
    pingClient sendAll 100 (0 + 1) stAliceBob "r" "alice"
      = some { stAliceBob with
          events := Event.sent clientA.ws.id (stringify pingAt100)
                      :: stAliceBob.events } :=
  claim_C5.1 sendAll 100 0 stAliceBob "r" "alice" roomAB clientA
    (by decide) (by decide) (by decide) (by decide)

def pongFromAlice42 : WebSocketMessage :=
  { type := MsgType.pong, userId := "alice", timestamp := 42,
    particles := none, color := none }

theorem claim_C6_witness :
    (pongFromAlice42.type = MsgType.pong →
      ∃ st' room',
        wsInbound sendAll 100 (0 + roomAB.clients.length + 3) stAliceBob "r"
            "alice" wsA pongFromAlice42 = some st' ∧
        mapGet st'.rooms "r" = some room' ∧
        mapGet room'.clients "alice" = some { clientA with lastSeen := 100 }) ∧
    (pongFromAlice42.type = MsgType.update →
      ∃ st' room',
        wsInbound sendAll 100 (0 + roomAB.clients.length + 3) stAliceBob "r"
            "alice" wsA pongFromAlice42 = some st' ∧
        mapGet st'.rooms "r" = some room' ∧
        mapGet room'.clients "alice" = some clientA) :=
  claim_C6 sendAll 100 0 stAliceBob "r" "alice" wsA roomAB clientA
    pongFromAlice42 (by decide) (by decide) (by decide) (by decide) (by decide)

theorem claim_C8_witness :
    ∃ st',
      wsInbound sendAll 100 (0 + roomAB.clients.length + 3) stAliceBob "r"
          "alice" wsA pongFromAlice42 = some st' ∧
      Event.sent clientB.ws.id (stringify pongFromAlice42) ∈ st'.events :=
  claim_C8.2.2 sendAll 100 0 stAliceBob "r" "alice" wsA roomAB pongFromAlice42
    ("bob", clientB) (by decide) (by decide) (by decide) (by decide)
    (by decide) (by decide)

def sioEmpty : SioState :=
  { rooms := [], socketToUser := [], emits := [], disconnectedSockets := [] }

theorem claim_C9_witness :
    sioOnConnection 5 sioEmpty "s1" none (some "R")
      = { sioEmpty with disconnectedSockets := "s1" :: sioEmpty.disconnectedSockets } :=
  claim_C9.1 5 sioEmpty "s1" none (some "R") (by decide)

theorem claim_C10_witness :
    ∃ st' room',
      broadcastToRoom sendAll 100 (0 + roomAB.clients.length + 2) stAliceBob "r"
          updFromAlice none = some st' ∧
      mapGet st'.rooms "r" = some room' ∧
      mapGet room'.clients "bob" = some { clientB with lastSeen := 100 } ∧
      Event.sent clientB.ws.id (stringify updFromAlice) ∈ st'.events ∧
      ∀ t, t ≤ 100 + CLIENT_TIMEOUT → ¬ (t - 100 > CLIENT_TIMEOUT) :=
  claim_C10 sendAll 100 0 stAliceBob "r" roomAB updFromAlice none "bob" clientB
    (by decide) (by decide) (by decide) (by decide) (by decide)

/-! ### Single-failure broadcast: supporting lemmas -/

theorem shouldSend_refreshEntry (now : Nat) (exclude e : Option String)
    (p : String × RoomClient) :
    shouldSend e (refreshEntry now exclude p).2 = shouldSend e p.2 := by
  unfold refreshEntry
  split_ifs <;> rfl

theorem ws_refreshEntry (now : Nat) (exclude : Option String)
    (p : String × RoomClient) :
    (refreshEntry now exclude p).2.ws = p.2.ws := by
  unfold refreshEntry
  split_ifs <;> rfl

theorem userId_refreshEntry (now : Nat) (exclude : Option String)
    (p : String × RoomClient) :
    (refreshEntry now exclude p).2.userId = p.2.userId := by
  unfold refreshEntry
  split_ifs <;> rfl

theorem fst_refreshEntry (now : Nat) (exclude : Option String)
    (p : String × RoomClient) :
    (refreshEntry now exclude p).1 = p.1 := by
  unfold refreshEntry
  split_ifs <;> rfl

theorem keys_refreshOn (now : Nat) (exclude : Option String) (ks : List String)
    (C : List (String × RoomClient)) :
    (refreshOn now exclude ks C).map Prod.fst = C.map Prod.fst := by
  unfold refreshOn
  rw [List.map_map]
  apply List.map_congr_left
  intro p _
  by_cases hk : p.1 ∈ ks
  · simp only [Function.comp_apply, if_pos hk]
    exact fst_refreshEntry now exclude p
  · simp only [Function.comp_apply, if_neg hk]

theorem mapGet_refreshOn_not_mem (now : Nat) (exclude : Option String)
    (ks : List String) (C : List (String × RoomClient)) (k : String)
    (hk : k ∉ ks) :
    mapGet (refreshOn now exclude ks C) k = mapGet C k := by
  induction C with
  | nil => rfl
  | cons p rest ih =>
    obtain ⟨k1, c1⟩ := p
    unfold refreshOn
    rw [List.map_cons]
    by_cases hk1 : k1 = k
    · subst hk1
      have hnot : ((k1, c1).1 ∈ ks) = False := by
        simp [hk]
      rw [if_neg (by simp [hk])]
      simp [mapGet]
    · by_cases hmem : (k1, c1).1 ∈ ks
      · rw [if_pos hmem]
        have hfst := fst_refreshEntry now exclude (k1, c1)
        rcases hre : refreshEntry now exclude (k1, c1) with ⟨rk, rc⟩
        rw [hre] at hfst
        simp only at hfst
        subst hfst
        simp only [mapGet, if_neg hk1]
        exact ih
      · rw [if_neg hmem]
        simp only [mapGet, if_neg hk1]
        exact ih

theorem mapDelete_sublist {α : Type} (C : List (String × α)) (k : String) :
    (mapDelete C k).Sublist C := by
  induction C with
  | nil => simp [mapDelete]
  | cons p rest ih =>
    obtain ⟨k1, c1⟩ := p
    by_cases hk : k1 = k
    · rw [mapDelete, if_pos hk]
      exact ih.cons _
    · rw [mapDelete, if_neg hk]
      exact ih.cons₂ _

theorem keys_mapDelete_nodup {α : Type} {C : List (String × α)} (k : String)
    (h : (C.map Prod.fst).Nodup) : ((mapDelete C k).map Prod.fst).Nodup :=
  List.Nodup.sublist (List.Sublist.map Prod.fst (mapDelete_sublist C k)) h

/-- Processing a prefix of the visit list whose sends all succeed reduces the
loop to the remaining keys over the prefix-refreshed state. -/
theorem broadcastLoop_append_ok (sendOk : Nat → Bool) (now : Nat) :
    ∀ (ks1 ks2 : List String) (f : Nat) (st : ManagerState) (roomId : String)
      (room : Room) (messageStr : String) (exclude : Option String),
    mapGet st.rooms roomId = some room →
    ks1.Nodup →
    (∀ k ∈ ks1, k ∈ room.clients.map Prod.fst) →
    (room.clients.map Prod.fst).Nodup →
    (∀ p ∈ room.clients, p.1 ∈ ks1 → shouldSend exclude p.2 = true →
      sendOk p.2.ws.id = true) →
    broadcastLoop sendOk now (f + ks1.length) st roomId (ks1 ++ ks2) messageStr exclude
      = broadcastLoop sendOk now f
          { st with
            rooms := mapSet st.rooms roomId
              { room with clients := refreshOn now exclude ks1 room.clients },
            events := (sendEventsOn messageStr exclude room.clients ks1).reverse
                        ++ st.events }
          roomId ks2 messageStr exclude := by
  intro ks1
  induction ks1 with
  | nil =>
    intro ks2 f st roomId room messageStr exclude h hnd hsub hcnd hok
    rw [refreshOn_nil]
    have h1 : ({ room with clients := room.clients } : Room) = room := rfl
    rw [h1, mapSet_get_self h]
    rfl
  | cons k ks ih =>
    intro ks2 f st roomId room messageStr exclude h hnd hsub hcnd hok
    obtain ⟨hknotin, hndks⟩ := List.nodup_cons.1 hnd
    have hkmem : k ∈ room.clients.map Prod.fst := hsub k (List.mem_cons_self _ _)
    obtain ⟨c, hc⟩ := mapGet_of_mem_keys hkmem
    rw [show f + (k :: ks).length = (f + ks.length) + 1 from rfl]
    rw [show (k :: ks) ++ ks2 = k :: (ks ++ ks2) from rfl]
    rw [broadcastLoop_succ]
    simp only [h, hc]
    by_cases hss : shouldSend exclude c = true
    · have hsend : sendOk c.ws.id = true :=
        hok (k, c) (mapGet_some_mem hc) (List.mem_cons_self _ _) hss
      simp only [hss, if_true, hsend]
      set c2 : RoomClient := { c with lastSeen := now } with hc2
      set room2 : Room := { room with clients := mapSet room.clients k c2 } with hroom2
      set st2 : ManagerState :=
        { st with
          rooms := mapSet st.rooms roomId room2,
          events := Event.sent c.ws.id messageStr :: st.events } with hst2
      have h2 : mapGet st2.rooms roomId = some room2 := by
        rw [hst2]
        exact mapGet_mapSet_self _ _ _
      have hkeyseq : room2.clients.map Prod.fst = room.clients.map Prod.fst := by
        rw [hroom2]
        exact keys_mapSet c2 hc
      have hsub2 : ∀ k' ∈ ks, k' ∈ room2.clients.map Prod.fst := by
        intro k' hk'
        rw [hkeyseq]
        exact hsub k' (List.mem_cons_of_mem _ hk')
      have hcnd2 : (room2.clients.map Prod.fst).Nodup := by
        rw [hkeyseq]; exact hcnd
      have hok2 : ∀ p ∈ room2.clients, p.1 ∈ ks → shouldSend exclude p.2 = true →
          sendOk p.2.ws.id = true := by
        intro p hp hpk hps
        rcases mem_mapSet hp with hmem | hmem
        · exact hok p hmem (List.mem_cons_of_mem _ hpk) hps
        · rw [hmem]
          exact hsend
      have hnext := ih ks2 f st2 roomId room2 messageStr exclude h2 hndks hsub2
        hcnd2 hok2
      rw [hnext]
      congr 1
      have hclients : refreshOn now exclude ks room2.clients
          = refreshOn now exclude (k :: ks) room.clients := by
        rw [hroom2]
        exact refreshOn_cons_send now exclude k ks room.clients c hcnd hc hss hknotin
      have hevents : sendEventsOn messageStr exclude room2.clients ks
          = sendEventsOn messageStr exclude room.clients ks := by
        apply sendEventsOn_congr
        intro k' hk'
        rw [hroom2]
        exact mapGet_mapSet_ne _ _ _ _ (fun hc' => hknotin (hc' ▸ hk'))
      have heventsCons : sendEventsOn messageStr exclude room.clients (k :: ks)
          = Event.sent c.ws.id messageStr
              :: sendEventsOn messageStr exclude room.clients ks := by
        unfold sendEventsOn
        rw [List.filterMap_cons]
        simp [hc, hss]
      rw [hclients, hevents, heventsCons, List.reverse_cons, List.append_assoc]
      have hrooms : mapSet st2.rooms roomId
          ({ room2 with clients := refreshOn now exclude (k :: ks) room.clients } : Room)
          = mapSet st.rooms roomId
            ({ room with clients := refreshOn now exclude (k :: ks) room.clients } : Room) := by
        rw [hst2]
        have : ({ room2 with clients := refreshOn now exclude (k :: ks) room.clients } : Room)
            = ({ room with clients := refreshOn now exclude (k :: ks) room.clients } : Room) := by
          rw [hroom2]
        rw [this]
        exact mapSet_mapSet _ _ _ _
      rw [hrooms]
      rfl
    · have hssf : shouldSend exclude c = false := by
        simpa using hss
      simp only [hssf, Bool.false_eq_true, if_false]
      have hnext := ih ks2 f st roomId room messageStr exclude h hndks
        (fun k' hk' => hsub k' (List.mem_cons_of_mem _ hk')) hcnd
        (fun p hp hpk hps => hok p hp (List.mem_cons_of_mem _ hpk) hps)
      rw [hnext]
      congr 1
      have hclients : refreshOn now exclude (k :: ks) room.clients
          = refreshOn now exclude ks room.clients :=
        refreshOn_cons_noSend now exclude k ks room.clients c hcnd hc hssf
      have heventsCons : sendEventsOn messageStr exclude room.clients (k :: ks)
          = sendEventsOn messageStr exclude room.clients ks := by
        unfold sendEventsOn
        rw [List.filterMap_cons]
        simp [hc, hssf]
      rw [hclients, heventsCons]

theorem mapGet_append {α : Type} (l1 l2 : List (String × α)) (k : String)
    (h : k ∉ l1.map Prod.fst) : mapGet (l1 ++ l2) k = mapGet l2 k := by
  induction l1 with
  | nil => rfl
  | cons p rest ih =>
    obtain ⟨k1, c1⟩ := p
    have hne : k1 ≠ k := by
      intro hc
      exact h (by simp [hc])
    simp only [List.cons_append, mapGet, if_neg hne]
    exact ih (fun hm => h (List.mem_cons_of_mem _ hm))

theorem mem_sendEventsOn (messageStr : String) (exclude : Option String)
    {C : List (String × RoomClient)} {ks : List String} {k : String}
    {c : RoomClient} (hk : k ∈ ks) (hc : mapGet C k = some c)
    (hss : shouldSend exclude c = true) :
    Event.sent c.ws.id messageStr ∈ sendEventsOn messageStr exclude C ks := by
  unfold sendEventsOn
  rw [List.mem_filterMap]
  refine ⟨k, hk, ?_⟩
  rw [hc]
  simp [hss]

/-- The effect of the per-entry refresh that `removeClient`'s `user_left`
broadcast applies under the eviction exclusion. -/
theorem shouldSend_refreshFn (e : Option String) (now : Nat)
    (exclude : Option String) (c : RoomClient) :
    shouldSend e (if shouldSend exclude c then { c with lastSeen := now } else c)
      = shouldSend e c := by
  split_ifs <;> rfl

theorem wsid_refreshFn (now : Nat) (exclude : Option String) (c : RoomClient) :
    (if shouldSend exclude c then { c with lastSeen := now } else c).ws = c.ws := by
  split_ifs <;> rfl

/-- A broadcast during which exactly one member's send throws (every other
send, including the nested `user_left` fan-out, succeeding): the call
returns normally, the failing member has been removed by the triggered
`removeClient`, and every other open, non-excluded member is still delivered
the serialized message. -/
theorem broadcastSingleFailure (sendOk : Nat → Bool) (now f : Nat)
    (st : ManagerState) (roomId : String) (room : Room)
    (msg : WebSocketMessage) (exclude : Option String)
    (A B : List (String × RoomClient)) (fuid : String) (fc : RoomClient)
    (hsplit : room.clients = A ++ (fuid, fc) :: B)
    (h : mapGet st.rooms roomId = some room)
    (hcnd : (room.clients.map Prod.fst).Nodup)
    (hmatch : ∀ p ∈ room.clients, p.2.userId = p.1)
    (hokAB : ∀ p ∈ A ++ B, sendOk p.2.ws.id = true)
    (hfail : sendOk fc.ws.id = false)
    (hfss : shouldSend exclude fc = true) :
    ∃ st',
      broadcastToRoom sendOk now (f + 2 * room.clients.length + 5) st roomId msg
          exclude = some st' ∧
      (∀ room', mapGet st'.rooms roomId = some room' →
        mapGet room'.clients fuid = none) ∧
      (∀ p ∈ A ++ B, shouldSend exclude p.2 = true →
        Event.sent p.2.ws.id (stringify msg) ∈ st'.events) := by
  have hn : room.clients.length = A.length + B.length + 1 := by
    rw [hsplit]
    simp
    omega
  have hkeys : room.clients.map Prod.fst
      = A.map Prod.fst ++ fuid :: B.map Prod.fst := by
    rw [hsplit]
    simp
  have hcnd' : (A.map Prod.fst ++ fuid :: B.map Prod.fst).Nodup := by
    rw [← hkeys]
    exact hcnd
  have hdisj : List.Disjoint (A.map Prod.fst) (fuid :: B.map Prod.fst) :=
    List.disjoint_of_nodup_append hcnd'
  have hfuidA : fuid ∉ A.map Prod.fst := by
    intro hc
    exact hdisj hc (List.mem_cons_self _ _)
  have hndA : (A.map Prod.fst).Nodup := hcnd'.of_append_left
  have hndfB : (fuid :: B.map Prod.fst).Nodup := hcnd'.of_append_right
  have hfuidB : fuid ∉ B.map Prod.fst := (List.nodup_cons.1 hndfB).1
  have hndB : (B.map Prod.fst).Nodup := (List.nodup_cons.1 hndfB).2
  have hfcmatch : fc.userId = fuid := by
    have := hmatch (fuid, fc) (by rw [hsplit]; exact List.mem_append_right _ (List.mem_cons_self _ _))
    simpa using this
  have hgetC : ∀ p ∈ A ++ B, mapGet room.clients p.1 = some p.2 := by
    intro p hp
    apply mapGet_of_mem_nodup hcnd
    rw [hsplit]
    rcases List.mem_append.1 hp with hp | hp
    · exact List.mem_append_left _ hp
    · exact List.mem_append_right _ (List.mem_cons_of_mem _ hp)
  have hgetfc : mapGet room.clients fuid = some fc := by
    rw [hsplit]
    rw [mapGet_append _ _ _ hfuidA]
    simp [mapGet]
  have hssfc_evict : shouldSend (some fuid) fc = false := by
    simp [shouldSend, hfcmatch]
  -- phase 0: serialize and enter the forEach loop
  have hrun0 : broadcastToRoom sendOk now (f + 2 * room.clients.length + 5) st
      roomId msg exclude
      = broadcastLoop sendOk now (f + 2 * room.clients.length + 4)
          { st with serializations := st.serializations + 1 }
          roomId (A.map Prod.fst ++ fuid :: B.map Prod.fst) (stringify msg)
          exclude := by
    rw [show f + 2 * room.clients.length + 5
        = (f + 2 * room.clients.length + 4) + 1 from rfl]
    rw [broadcastToRoom_succ]
    simp only [h, hkeys]
  -- phase 1: the members before the failing one are all delivered
  have hokAk : ∀ p ∈ room.clients, p.1 ∈ A.map Prod.fst →
      shouldSend exclude p.2 = true → sendOk p.2.ws.id = true := by
    intro p hp hpk _
    rw [hsplit] at hp
    rcases List.mem_append.1 hp with hpA | hpB
    · exact hokAB p (List.mem_append_left _ hpA)
    · rcases List.mem_cons.1 hpB with hpf | hpB2
      · exfalso
        apply hfuidA
        rw [hpf] at hpk
        simpa using hpk
      · exact hokAB p (List.mem_append_right _ hpB2)
  have hrun1 : broadcastLoop sendOk now (f + 2 * room.clients.length + 4)
      { st with serializations := st.serializations + 1 }
      roomId (A.map Prod.fst ++ fuid :: B.map Prod.fst) (stringify msg) exclude
      = broadcastLoop sendOk now (f + room.clients.length + B.length + 5)
          { st with
            serializations := st.serializations + 1,
            rooms := mapSet st.rooms roomId
              { room with clients := refreshOn now exclude (A.map Prod.fst) room.clients },
            events := (sendEventsOn (stringify msg) exclude room.clients
                        (A.map Prod.fst)).reverse ++ st.events }
          roomId (fuid :: B.map Prod.fst) (stringify msg) exclude := by
    rw [show f + 2 * room.clients.length + 4
        = (f + room.clients.length + B.length + 5) + (A.map Prod.fst).length from by
      rw [List.length_map]
      omega]
    exact broadcastLoop_append_ok sendOk now (A.map Prod.fst)
      (fuid :: B.map Prod.fst) (f + room.clients.length + B.length + 5)
      { st with serializations := st.serializations + 1 } roomId room
      (stringify msg) exclude h hndA
      (fun k hk => by rw [hkeys]; exact List.mem_append_left _ hk) hcnd hokAk
  -- phase 2: the failing member's send throws, triggering removeClient
  have hgetA : mapGet (refreshOn now exclude (A.map Prod.fst) room.clients) fuid
      = some fc := by
    rw [mapGet_refreshOn_not_mem now exclude _ _ _ hfuidA, hgetfc]
  have hrun2 : broadcastLoop sendOk now (f + room.clients.length + B.length + 5)
      { st with
        serializations := st.serializations + 1,
        rooms := mapSet st.rooms roomId
          { room with clients := refreshOn now exclude (A.map Prod.fst) room.clients },
        events := (sendEventsOn (stringify msg) exclude room.clients
                    (A.map Prod.fst)).reverse ++ st.events }
      roomId (fuid :: B.map Prod.fst) (stringify msg) exclude
      = match removeClient sendOk now (f + room.clients.length + B.length + 4)
          { st with
            serializations := st.serializations + 1,
            rooms := mapSet st.rooms roomId
              { room with clients := refreshOn now exclude (A.map Prod.fst) room.clients },
            events := (sendEventsOn (stringify msg) exclude room.clients
                        (A.map Prod.fst)).reverse ++ st.events }
          roomId fuid with
        | none => none
        | some st2 => broadcastLoop sendOk now
            (f + room.clients.length + B.length + 4) st2 roomId
            (B.map Prod.fst) (stringify msg) exclude := by
    rw [show f + room.clients.length + B.length + 5
        = (f + room.clients.length + B.length + 4) + 1 from rfl]
    rw [broadcastLoop_succ]
    simp only [mapGet_mapSet_self, hgetA, hfss, if_true, hfail,
      Bool.false_eq_true, if_false, hfcmatch]
  -- phase 3: the removeClient runs to completion (its sends all succeed)
  have hndA' : ((refreshOn now exclude (A.map Prod.fst) room.clients).map
      Prod.fst).Nodup := by
    rw [keys_refreshOn]
    exact hcnd
  have hokR : ∀ p ∈ refreshOn now exclude (A.map Prod.fst) room.clients,
      shouldSend (some fuid) p.2 = true → sendOk p.2.ws.id = true := by
    intro p hp hps
    unfold refreshOn at hp
    rcases List.mem_map.1 hp with ⟨q, hq, hqe⟩
    have hws : p.2.ws = q.2.ws := by
      rw [← hqe]
      by_cases hqk : q.1 ∈ A.map Prod.fst
      · rw [if_pos hqk]
        exact congrArg RoomClient.ws (congrArg Prod.snd rfl) |>.trans
          (ws_refreshEntry now exclude q)
      · rw [if_neg hqk]
    have huid : p.2.userId = q.2.userId := by
      rw [← hqe]
      by_cases hqk : q.1 ∈ A.map Prod.fst
      · rw [if_pos hqk]
        exact userId_refreshEntry now exclude q
      · rw [if_neg hqk]
    rw [hws]
    rw [hsplit] at hq
    rcases List.mem_append.1 hq with hqa | hqb
    · exact hokAB q (List.mem_append_left _ hqa)
    · rcases List.mem_cons.1 hqb with hqf | hqb2
      · exfalso
        rw [hqf] at huid
        have hfalse : shouldSend (some fuid) p.2 = false := by
          simp only at huid
          simp [shouldSend, huid, hfcmatch]
        rw [hfalse] at hps
        cases hps
      · exact hokAB q (List.mem_append_right _ hqb2)
  have hlenR : (refreshOn now exclude (A.map Prod.fst) room.clients).length
      = room.clients.length := by
    unfold refreshOn
    rw [List.length_map]
  have hrm := removeClient_allOk sendOk now (f + B.length + 1)
    { st with
      serializations := st.serializations + 1,
      rooms := mapSet st.rooms roomId
        { room with clients := refreshOn now exclude (A.map Prod.fst) room.clients },
      events := (sendEventsOn (stringify msg) exclude room.clients
                  (A.map Prod.fst)).reverse ++ st.events }
    roomId fuid
    { room with clients := refreshOn now exclude (A.map Prod.fst) room.clients }
    (mapGet_mapSet_self _ _ _) hndA' hokR
  have hfuel : (f + B.length + 1)
      + (refreshOn now exclude (A.map Prod.fst) room.clients).length + 3
      = f + room.clients.length + B.length + 4 := by
    rw [hlenR]
    omega
  dsimp only at hrm
  rw [hfuel] at hrm
  -- phase 4: analyze the state produced by the triggered removeClient
  have hgetRef : mapGet ((refreshOn now exclude (A.map Prod.fst) room.clients).map (refreshEntry now (some fuid))) fuid = some fc := by
    rw [mapGet_map_refresh, hgetA]
    simp [hssfc_evict]
  have hhasR : mapHas ((refreshOn now exclude (A.map Prod.fst) room.clients).map (refreshEntry now (some fuid))) fuid = true := by
    unfold mapHas
    rw [hgetRef]
    rfl
  have hkeyAB : ∀ p ∈ A ++ B, p.1 ≠ fuid := by
    intro p hp
    rcases List.mem_append.1 hp with hpA | hpB
    · intro he
      exact hfuidA (he ▸ List.mem_map.2 ⟨p, hpA, rfl⟩)
    · intro he
      exact hfuidB (he ▸ List.mem_map.2 ⟨p, hpB, rfl⟩)
  have hmemKeys : ∀ p ∈ A ++ B, p.1 ∈ room.clients.map Prod.fst := by
    intro p hp
    rw [hkeys]
    rcases List.mem_append.1 hp with hpA | hpB
    · exact List.mem_append_left _ (List.mem_map.2 ⟨p, hpA, rfl⟩)
    · exact List.mem_append_right _
        (List.mem_cons_of_mem _ (List.mem_map.2 ⟨p, hpB, rfl⟩))
  have hgetC2 : ∀ p ∈ B, mapGet (mapDelete ((refreshOn now exclude (A.map Prod.fst) room.clients).map (refreshEntry now (some fuid))) fuid) p.1
      = some (if shouldSend (some fuid) p.2 then { p.2 with lastSeen := now }
              else p.2) := by
    intro p hp
    have hne : p.1 ≠ fuid := hkeyAB p (List.mem_append_right _ hp)
    have hnA : p.1 ∉ A.map Prod.fst := by
      intro hin
      exact hdisj hin (List.mem_cons_of_mem _ (List.mem_map.2 ⟨p, hp, rfl⟩))
    rw [mapGet_mapDelete_ne _ _ _ hne, mapGet_map_refresh,
        mapGet_refreshOn_not_mem now exclude _ _ _ hnA,
        hgetC p (List.mem_append_right _ hp)]
    rfl
  have heventsR : (removeClientResult now
      { st with
        serializations := st.serializations + 1,
        rooms := mapSet st.rooms roomId
          { room with clients := refreshOn now exclude (A.map Prod.fst) room.clients },
        events := (sendEventsOn (stringify msg) exclude room.clients
                    (A.map Prod.fst)).reverse ++ st.events }
      roomId fuid
      { room with clients := refreshOn now exclude (A.map Prod.fst) room.clients }).events
      = (sendEvents (stringify
          { type := MsgType.user_left, userId := fuid, timestamp := now,
            particles := none, color := none }) (some fuid)
          (refreshOn now exclude (A.map Prod.fst) room.clients)).reverse
        ++ ((sendEventsOn (stringify msg) exclude room.clients
              (A.map Prod.fst)).reverse ++ st.events) :=
    removeClientResult_events now _ roomId fuid _
  by_cases hemp : (mapDelete ((refreshOn now exclude (A.map Prod.fst) room.clients).map (refreshEntry now (some fuid))) fuid).isEmpty = true
  · -- the failing member was the only one: the room is deleted outright
    have hnil : mapDelete ((refreshOn now exclude (A.map Prod.fst) room.clients).map (refreshEntry now (some fuid))) fuid = [] := by
      cases hc : mapDelete ((refreshOn now exclude (A.map Prod.fst) room.clients).map (refreshEntry now (some fuid))) fuid with
      | nil => rfl
      | cons q qs =>
        rw [hc] at hemp
        simp at hemp
    have hABnil : A ++ B = [] := by
      cases hconsAB : A ++ B with
      | nil => rfl
      | cons p rest =>
        exfalso
        have hp : p ∈ A ++ B := by
          rw [hconsAB]
          exact List.mem_cons_self _ _
        have hne : p.1 ≠ fuid := hkeyAB p hp
        have hkm : p.1 ∈ ((refreshOn now exclude (A.map Prod.fst)
            room.clients).map (refreshEntry now (some fuid))).map Prod.fst := by
          rw [keys_map_refresh, keys_refreshOn]
          exact hmemKeys p hp
        obtain ⟨v, hv⟩ := mapGet_of_mem_keys hkm
        have hv2 : mapGet (mapDelete ((refreshOn now exclude (A.map Prod.fst) room.clients).map (refreshEntry now (some fuid))) fuid) p.1 = some v := by
          rw [mapGet_mapDelete_ne _ _ _ hne]
          exact hv
        rw [hnil] at hv2
        simp [mapGet] at hv2
    have hA0 : A = [] := (List.append_eq_nil.1 hABnil).1
    have hB0 : B = [] := (List.append_eq_nil.1 hABnil).2
    have hnone : mapGet (removeClientResult now
        { st with
        serializations := st.serializations + 1,
        rooms := mapSet st.rooms roomId
          { room with clients := refreshOn now exclude (A.map Prod.fst) room.clients },
        events := (sendEventsOn (stringify msg) exclude room.clients
                    (A.map Prod.fst)).reverse ++ st.events }
        roomId fuid
        { room with clients := refreshOn now exclude (A.map Prod.fst) room.clients }).rooms roomId = none := by
      unfold removeClientResult
      dsimp only
      rw [if_pos hhasR, if_pos hemp]
      exact mapGet_mapDelete_self _ _
    refine ⟨removeClientResult now
      { st with
        serializations := st.serializations + 1,
        rooms := mapSet st.rooms roomId
          { room with clients := refreshOn now exclude (A.map Prod.fst) room.clients },
        events := (sendEventsOn (stringify msg) exclude room.clients
                    (A.map Prod.fst)).reverse ++ st.events }
      roomId fuid
      { room with clients := refreshOn now exclude (A.map Prod.fst) room.clients }, ?_, ?_, ?_⟩
    · rw [hrun0, hrun1, hrun2]
      simp only [hrm]
      rw [hB0]
      simp only [List.map_nil, List.length_nil, Nat.add_zero]
      rw [show f + room.clients.length + 4
          = (f + room.clients.length + 3) + 1 from rfl]
      rw [broadcastLoop_succ]
    · intro room2 hroom2
      rw [hnone] at hroom2
      exact Option.noConfusion hroom2
    · intro p hp _
      rw [hABnil] at hp
      exact absurd hp (List.not_mem_nil p)
  · -- other members remain: the room survives and the trailing members get
    -- their sends
    have hlookupR : mapGet (removeClientResult now
        { st with
        serializations := st.serializations + 1,
        rooms := mapSet st.rooms roomId
          { room with clients := refreshOn now exclude (A.map Prod.fst) room.clients },
        events := (sendEventsOn (stringify msg) exclude room.clients
                    (A.map Prod.fst)).reverse ++ st.events }
        roomId fuid
        { room with clients := refreshOn now exclude (A.map Prod.fst) room.clients }).rooms roomId
        = some { room with clients := mapDelete ((refreshOn now exclude (A.map Prod.fst) room.clients).map (refreshEntry now (some fuid))) fuid } := by
      unfold removeClientResult
      dsimp only
      rw [if_pos hhasR, if_neg hemp]
      exact mapGet_mapSet_self _ _ _
    have hsub : ∀ k ∈ B.map Prod.fst,
        k ∈ (mapDelete ((refreshOn now exclude (A.map Prod.fst) room.clients).map (refreshEntry now (some fuid))) fuid).map Prod.fst := by
      intro k hk
      rcases List.mem_map.1 hk with ⟨p, hp, hpk⟩
      have := hgetC2 p hp
      rw [hpk] at this
      exact mem_keys_of_mapGet_some this
    have hcndR : ((mapDelete ((refreshOn now exclude (A.map Prod.fst) room.clients).map (refreshEntry now (some fuid))) fuid).map Prod.fst).Nodup := by
      apply keys_mapDelete_nodup
      rw [keys_map_refresh, keys_refreshOn]
      exact hcnd
    have hokBr : ∀ p ∈ mapDelete ((refreshOn now exclude (A.map Prod.fst) room.clients).map (refreshEntry now (some fuid))) fuid,
        shouldSend exclude p.2 = true → sendOk p.2.ws.id = true := by
      intro p hp _
      have hne : p.1 ≠ fuid := mem_mapDelete_key_ne hp
      have hp2 : p ∈ ((refreshOn now exclude (A.map Prod.fst) room.clients).map (refreshEntry now (some fuid))) := mem_mapDelete hp
      rcases List.mem_map.1 hp2 with ⟨q1, hq1, hq1e⟩
      have hws1 : p.2.ws = q1.2.ws := by
        rw [← hq1e]
        exact ws_refreshEntry now (some fuid) q1
      have hfst1 : p.1 = q1.1 := by
        rw [← hq1e]
        exact fst_refreshEntry now (some fuid) q1
      unfold refreshOn at hq1
      rcases List.mem_map.1 hq1 with ⟨q, hq, hqe⟩
      have hws2 : q1.2.ws = q.2.ws := by
        rw [← hqe]
        by_cases hqk : q.1 ∈ A.map Prod.fst
        · rw [if_pos hqk]
          exact ws_refreshEntry now exclude q
        · rw [if_neg hqk]
      have hfst2 : q1.1 = q.1 := by
        rw [← hqe]
        by_cases hqk : q.1 ∈ A.map Prod.fst
        · rw [if_pos hqk]
          exact fst_refreshEntry now exclude q
        · rw [if_neg hqk]
      rw [hws1, hws2]
      rw [hsplit] at hq
      rcases List.mem_append.1 hq with hqa | hqb
      · exact hokAB q (List.mem_append_left _ hqa)
      · rcases List.mem_cons.1 hqb with hqf | hqb2
        · exact absurd (by rw [hfst1, hfst2, hqf]) hne
        · exact hokAB q (List.mem_append_right _ hqb2)
    have hloopB := broadcastLoop_allOk sendOk now (B.map Prod.fst)
      (f + room.clients.length + 3)
      (removeClientResult now
        { st with
        serializations := st.serializations + 1,
        rooms := mapSet st.rooms roomId
          { room with clients := refreshOn now exclude (A.map Prod.fst) room.clients },
        events := (sendEventsOn (stringify msg) exclude room.clients
                    (A.map Prod.fst)).reverse ++ st.events }
        roomId fuid
        { room with clients := refreshOn now exclude (A.map Prod.fst) room.clients })
      roomId
      { room with clients := mapDelete ((refreshOn now exclude (A.map Prod.fst) room.clients).map (refreshEntry now (some fuid))) fuid }
      (stringify msg) exclude hlookupR hndB hsub hcndR hokBr
    rw [show (f + room.clients.length + 3) + (B.map Prod.fst).length + 1
        = f + room.clients.length + B.length + 4 from by
      rw [List.length_map]
      omega] at hloopB
    refine ⟨{ (removeClientResult now
        { st with
              serializations := st.serializations + 1,
              rooms := mapSet st.rooms roomId
                { room with clients := refreshOn now exclude (A.map Prod.fst) room.clients },
              events := (sendEventsOn (stringify msg) exclude room.clients
                          (A.map Prod.fst)).reverse ++ st.events }
        roomId fuid
        { room with clients := refreshOn now exclude (A.map Prod.fst) room.clients }) with
      rooms := mapSet (removeClientResult now
          { st with
              serializations := st.serializations + 1,
              rooms := mapSet st.rooms roomId
                { room with clients := refreshOn now exclude (A.map Prod.fst) room.clients },
              events := (sendEventsOn (stringify msg) exclude room.clients
                          (A.map Prod.fst)).reverse ++ st.events }
          roomId fuid
          { room with clients := refreshOn now exclude (A.map Prod.fst) room.clients }).rooms roomId
        { room with clients := (refreshOn now exclude (B.map Prod.fst)
            (mapDelete ((refreshOn now exclude (A.map Prod.fst) room.clients).map (refreshEntry now (some fuid))) fuid)) },
      events := (sendEventsOn (stringify msg) exclude
          (mapDelete ((refreshOn now exclude (A.map Prod.fst) room.clients).map (refreshEntry now (some fuid))) fuid) (B.map Prod.fst)).reverse
        ++ (removeClientResult now
            { st with
              serializations := st.serializations + 1,
              rooms := mapSet st.rooms roomId
                { room with clients := refreshOn now exclude (A.map Prod.fst) room.clients },
              events := (sendEventsOn (stringify msg) exclude room.clients
                          (A.map Prod.fst)).reverse ++ st.events }
            roomId fuid
            { room with clients := refreshOn now exclude (A.map Prod.fst) room.clients }).events }, ?_, ?_, ?_⟩
    · rw [hrun0, hrun1, hrun2]
      simp only [hrm]
      exact hloopB
    · intro room2 hroom2
      simp only [mapGet_mapSet_self] at hroom2
      injection hroom2 with hroom2e
      subst hroom2e
      show mapGet (refreshOn now exclude (B.map Prod.fst)
        (mapDelete ((refreshOn now exclude (A.map Prod.fst) room.clients).map (refreshEntry now (some fuid))) fuid)) fuid = none
      rw [mapGet_refreshOn_not_mem now exclude _ _ _ hfuidB]
      exact mapGet_mapDelete_self _ _
    · intro p hp hss
      show Event.sent p.2.ws.id (stringify msg)
          ∈ (sendEventsOn (stringify msg) exclude
              (mapDelete ((refreshOn now exclude (A.map Prod.fst) room.clients).map (refreshEntry now (some fuid))) fuid) (B.map Prod.fst)).reverse
            ++ (removeClientResult now
                { st with
        serializations := st.serializations + 1,
        rooms := mapSet st.rooms roomId
          { room with clients := refreshOn now exclude (A.map Prod.fst) room.clients },
        events := (sendEventsOn (stringify msg) exclude room.clients
                    (A.map Prod.fst)).reverse ++ st.events }
                roomId fuid
                { room with clients := refreshOn now exclude (A.map Prod.fst) room.clients }).events
      rcases List.mem_append.1 hp with hpA | hpB
      · apply List.mem_append_right
        rw [heventsR]
        apply List.mem_append_right
        apply List.mem_append_left
        rw [List.mem_reverse]
        exact mem_sendEventsOn (stringify msg) exclude
          (List.mem_map.2 ⟨p, hpA, rfl⟩)
          (hgetC p (List.mem_append_left _ hpA)) hss
      · apply List.mem_append_left
        rw [List.mem_reverse]
        have hevt := mem_sendEventsOn (stringify msg) exclude
          (List.mem_map.2 ⟨p, hpB, rfl⟩) (hgetC2 p hpB)
          (by rw [shouldSend_refreshFn]; exact hss)
        rw [wsid_refreshFn] at hevt
        exact hevt

/-- Claim C3 (corrected).  `broadcastToRoom` serializes the message exactly
once per pass and, when every attempted send succeeds, delivers the identical
serialized bytes to every open, non-excluded member and to nobody else, with
no error raised (first conjunct, all-success characterization); and when
exactly one member's send throws — every other send, including the nested
`user_left` fan-out, succeeding — the call still returns normally, the
failing member has been removed from the room by the triggered
`removeClient`, and every other open, non-excluded member has been delivered
the identical bytes (second conjunct).  The unamended claim is refuted
separately: with two failing members the mutual recursion between
`broadcastToRoom` and `removeClient` never terminates. -/
theorem claim_C3 :
    (∀ (sendOk : Nat → Bool) (now f : Nat) (st : ManagerState)
      (roomId : String) (room : Room) (msg : WebSocketMessage)
      (exclude : Option String),
      mapGet st.rooms roomId = some room →
      (room.clients.map Prod.fst).Nodup →
      (∀ p ∈ room.clients, shouldSend exclude p.2 = true →
        sendOk p.2.ws.id = true) →
      broadcastToRoom sendOk now (f + room.clients.length + 2) st roomId msg
          exclude
        = some { st with
            serializations := st.serializations + 1,
            rooms := mapSet st.rooms roomId
              { room with clients := room.clients.map (refreshEntry now exclude) },
            events := (sendEvents (stringify msg) exclude room.clients).reverse
                        ++ st.events }) ∧
    (∀ (sendOk : Nat → Bool) (now f : Nat) (st : ManagerState)
      (roomId : String) (room : Room) (msg : WebSocketMessage)
      (exclude : Option String) (A B : List (String × RoomClient))
      (fuid : String) (fc : RoomClient),
      room.clients = A ++ (fuid, fc) :: B →
      mapGet st.rooms roomId = some room →
      (room.clients.map Prod.fst).Nodup →
      (∀ p ∈ room.clients, p.2.userId = p.1) →
      (∀ p ∈ A ++ B, sendOk p.2.ws.id = true) →
      sendOk fc.ws.id = false →
      shouldSend exclude fc = true →
      ∃ st',
        broadcastToRoom sendOk now (f + 2 * room.clients.length + 5) st roomId
            msg exclude = some st' ∧
        (∀ room', mapGet st'.rooms roomId = some room' →
          mapGet room'.clients fuid = none) ∧
        (∀ p ∈ A ++ B, shouldSend exclude p.2 = true →
          Event.sent p.2.ws.id (stringify msg) ∈ st'.events)) :=
  ⟨fun sendOk now f st roomId room msg exclude h hcnd hok =>
    broadcastToRoom_allOk sendOk now f st roomId room msg exclude h hcnd hok,
   fun sendOk now f st roomId room msg exclude A B fuid fc hsplit h hcnd
      hmatch hokAB hfail hfss =>
    broadcastSingleFailure sendOk now f st roomId room msg exclude A B fuid fc
      hsplit h hcnd hmatch hokAB hfail hfss⟩

/-- Concrete instance of the single-failure part of claim C3: in room `"r"`
with members `alice` (handle 1, send succeeds) and `bob` (handle 2, send
throws), a broadcast completes, removes `bob`, and still delivers the bytes
to `alice`. -/
theorem claim_C3_witness :
    ∃ st',
      broadcastToRoom (fun i => decide (i ≠ 2)) 100
          (0 + 2 * roomAB.clients.length + 5) stAliceBob "r" updFromAlice none
        = some st' ∧
      (∀ room', mapGet st'.rooms "r" = some room' →
        mapGet room'.clients "bob" = none) ∧
      (∀ p ∈ [("alice", clientA)] ++ ([] : List (String × RoomClient)),
        shouldSend none p.2 = true →
        Event.sent p.2.ws.id (stringify updFromAlice) ∈ st'.events) :=
  claim_C3.2 (fun i => decide (i ≠ 2)) 100 0 stAliceBob "r" roomAB updFromAlice
    none [("alice", clientA)] [] "bob" clientB (by decide) (by decide)
    (by decide) (by decide) (by decide) (by decide) (by decide)

/-! ### Cleanup sweep: eviction or refresh (claim C7) -/

theorem lastSeen_refreshEntry (now : Nat) (exclude : Option String)
    (p : String × RoomClient) :
    (refreshEntry now exclude p).2.lastSeen = p.2.lastSeen ∨
    (refreshEntry now exclude p).2.lastSeen = now := by
  unfold refreshEntry
  split_ifs
  · right
    rfl
  · left
    rfl

/-- A member of the post-`user_left`-fan-out client map traces back to a
member of the original map with the same socket and userId, its `lastSeen`
either untouched or set to the broadcast time. -/
theorem trace_of_mem_refreshed {now : Nat} {uid : String} {room : Room}
    (hcnd : (room.clients.map Prod.fst).Nodup) {p : String × RoomClient}
    (hp : p ∈ room.clients.map (refreshEntry now (some uid))) :
    ∃ c, mapGet room.clients p.1 = some c ∧ c.ws = p.2.ws ∧
      c.userId = p.2.userId ∧
      (p.2.lastSeen = c.lastSeen ∨ p.2.lastSeen = now) := by
  rcases List.mem_map.1 hp with ⟨q, hq, hqe⟩
  have hfst : p.1 = q.1 := by
    rw [← hqe]
    exact fst_refreshEntry now (some uid) q
  have hget : mapGet room.clients q.1 = some q.2 := mapGet_of_mem_nodup hcnd hq
  refine ⟨q.2, by rw [hfst]; exact hget, ?_, ?_, ?_⟩
  · rw [← hqe]
    exact (ws_refreshEntry now (some uid) q).symm
  · rw [← hqe]
    exact (userId_refreshEntry now (some uid) q).symm
  · rw [← hqe]
    exact lastSeen_refreshEntry now (some uid) q

/-- Every member surviving a (send-successful) `removeClient` traces back to
a pre-removal member: same socket and userId, `lastSeen` untouched or set to
the removal time. -/
theorem removeClientResult_trace (now : Nat) (st : ManagerState)
    (roomId uid : String) (room : Room)
    (hcnd : (room.clients.map Prod.fst).Nodup) :
    ∀ room', mapGet (removeClientResult now st roomId uid room).rooms roomId
        = some room' →
      ∀ p ∈ room'.clients, ∃ c, mapGet room.clients p.1 = some c ∧
        c.ws = p.2.ws ∧ c.userId = p.2.userId ∧
        (p.2.lastSeen = c.lastSeen ∨ p.2.lastSeen = now) := by
  intro room' hr' p hp
  unfold removeClientResult at hr'
  dsimp only at hr'
  by_cases h1 : mapHas (room.clients.map (refreshEntry now (some uid))) uid = true
  · rw [if_pos h1] at hr'
    by_cases h2 : (mapDelete (room.clients.map (refreshEntry now (some uid)))
        uid).isEmpty = true
    · rw [if_pos h2, mapGet_mapDelete_self] at hr'
      exact Option.noConfusion hr'
    · rw [if_neg h2, mapGet_mapSet_self] at hr'
      injection hr' with hre
      subst hre
      exact trace_of_mem_refreshed hcnd (mem_mapDelete hp)
  · rw [if_neg h1, mapGet_mapSet_self] at hr'
    injection hr' with hre
    subst hre
    exact trace_of_mem_refreshed hcnd hp

/-- A (send-successful) `removeClient` preserves the room's key nodup-ness,
the userId/key match, and any size bound. -/
theorem removeClientResult_inv (now : Nat) (st : ManagerState)
    (roomId uid : String) (room : Room) (N : Nat)
    (hcnd : (room.clients.map Prod.fst).Nodup)
    (hmatch : ∀ p ∈ room.clients, p.2.userId = p.1)
    (hlen : room.clients.length ≤ N) :
    ∀ room', mapGet (removeClientResult now st roomId uid room).rooms roomId
        = some room' →
      (room'.clients.map Prod.fst).Nodup ∧
      (∀ p ∈ room'.clients, p.2.userId = p.1) ∧ room'.clients.length ≤ N := by
  intro room' hr'
  have hmatch' : ∀ p ∈ room'.clients, p.2.userId = p.1 := by
    intro p hp
    rcases removeClientResult_trace now st roomId uid room hcnd room' hr' p hp
      with ⟨c, hget, _, huid, _⟩
    rw [← huid]
    exact hmatch (p.1, c) (mapGet_some_mem hget)
  unfold removeClientResult at hr'
  dsimp only at hr'
  by_cases h1 : mapHas (room.clients.map (refreshEntry now (some uid))) uid = true
  · rw [if_pos h1] at hr'
    by_cases h2 : (mapDelete (room.clients.map (refreshEntry now (some uid)))
        uid).isEmpty = true
    · rw [if_pos h2, mapGet_mapDelete_self] at hr'
      exact Option.noConfusion hr'
    · rw [if_neg h2, mapGet_mapSet_self] at hr'
      injection hr' with hre
      subst hre
      refine ⟨?_, hmatch', ?_⟩
      · show ((mapDelete (room.clients.map (refreshEntry now (some uid)))
            uid).map Prod.fst).Nodup
        apply keys_mapDelete_nodup
        rw [keys_map_refresh]
        exact hcnd
      · show (mapDelete (room.clients.map (refreshEntry now (some uid)))
            uid).length ≤ N
        calc (mapDelete (room.clients.map (refreshEntry now (some uid)))
              uid).length
            ≤ (room.clients.map (refreshEntry now (some uid))).length :=
              (mapDelete_sublist _ _).length_le
          _ = room.clients.length := by rw [List.length_map]
          _ ≤ N := hlen
  · rw [if_neg h1, mapGet_mapSet_self] at hr'
    injection hr' with hre
    subst hre
    refine ⟨?_, hmatch', ?_⟩
    · show ((room.clients.map (refreshEntry now (some uid))).map Prod.fst).Nodup
      rw [keys_map_refresh]
      exact hcnd
    · show (room.clients.map (refreshEntry now (some uid))).length ≤ N
      rw [List.length_map]
      exact hlen

/-- The inner sweep loop of `cleanupInactiveClients` over a snapshot of
member keys, all sends succeeding: it completes, every surviving member of
the swept room traces back to an original member (socket and userId intact,
`lastSeen` untouched or refreshed to the sweep time), and no surviving
member whose key was visited is still over the timeout. -/
theorem cleanupClientsLoop_post (sendOk : Nat → Bool) (now : Nat)
    (roomId : String) (N : Nat) (hsend : ∀ i, sendOk i = true) :
    ∀ (uids : List String) (F : Nat) (st : ManagerState),
      uids.length + N + 4 ≤ F →
      (∀ room, mapGet st.rooms roomId = some room →
        (room.clients.map Prod.fst).Nodup ∧
        (∀ p ∈ room.clients, p.2.userId = p.1) ∧ room.clients.length ≤ N) →
      ∃ st',
        cleanupClientsLoop sendOk now F st roomId uids = some st' ∧
        (∀ room', mapGet st'.rooms roomId = some room' →
          ∃ room, mapGet st.rooms roomId = some room ∧
            ∀ p ∈ room'.clients, ∃ c, mapGet room.clients p.1 = some c ∧
              c.ws = p.2.ws ∧ c.userId = p.2.userId ∧
              (p.2.lastSeen = c.lastSeen ∨ p.2.lastSeen = now)) ∧
        (∀ room', mapGet st'.rooms roomId = some room' →
          ∀ p ∈ room'.clients, p.1 ∈ uids →
            now - p.2.lastSeen ≤ CLIENT_TIMEOUT) := by
  intro uids
  induction uids with
  | nil =>
    intro F st hF hinv
    simp only [List.length_nil] at hF
    refine ⟨st, ?_, ?_, ?_⟩
    · rw [show F = (F - 1) + 1 from by omega]
      rfl
    · intro room' hr'
      exact ⟨room', hr', fun p hp =>
        ⟨p.2, mapGet_of_mem_nodup (hinv room' hr').1 hp, rfl, rfl, Or.inl rfl⟩⟩
    · intro room' hr' p hp hmem
      exact absurd hmem (List.not_mem_nil _)
  | cons uid rest ih =>
    intro F st hF hinv
    simp only [List.length_cons] at hF
    rw [show F = (F - 1) + 1 from by omega]
    rcases hr : mapGet st.rooms roomId with _ | room
    · refine ⟨st, ?_, ?_, ?_⟩
      · simp only [cleanupClientsLoop, hr]
      · intro room' hr'
        rw [hr] at hr'
        exact Option.noConfusion hr'
      · intro room' hr'
        rw [hr] at hr'
        exact Option.noConfusion hr'
    · rw [← hr]
      rcases hc : mapGet room.clients uid with _ | client
      · obtain ⟨st', hrun, hevol, hpost⟩ := ih (F - 1) st (by omega) hinv
        refine ⟨st', ?_, hevol, ?_⟩
        · simp only [cleanupClientsLoop, hr, hc]
          exact hrun
        · intro room' hr' p hp hmem
          rcases List.mem_cons.1 hmem with h1 | h1
          · obtain ⟨room0, hr0, htr⟩ := hevol room' hr'
            injection (hr0.symm.trans hr) with he
            subst he
            obtain ⟨c, hgetc, _, _, _⟩ := htr p hp
            rw [h1, hc] at hgetc
            exact Option.noConfusion hgetc
          · exact hpost room' hr' p hp h1
      · by_cases hexp : now - client.lastSeen > CLIENT_TIMEOUT
        · obtain ⟨hcnd, hmatch, hlen⟩ := hinv room hr
          have hok : ∀ p ∈ room.clients, shouldSend (some uid) p.2 = true →
              sendOk p.2.ws.id = true := fun p _ _ => hsend _
          have hrm := removeClient_allOk sendOk now
            (F - 1 - (room.clients.length + 3)) st roomId uid room hr hcnd hok
          rw [show F - 1 - (room.clients.length + 3) + room.clients.length + 3
              = F - 1 from by omega] at hrm
          obtain ⟨st', hrun, hevol, hpost⟩ := ih (F - 1)
            (removeClientResult now st roomId uid room) (by omega)
            (removeClientResult_inv now st roomId uid room N hcnd hmatch hlen)
          refine ⟨st', ?_, ?_, ?_⟩
          · simp only [cleanupClientsLoop, hr, hc, if_pos hexp, hrm]
            exact hrun
          · intro room' hr'
            obtain ⟨room2, hr2, htr2⟩ := hevol room' hr'
            have htr1 := removeClientResult_trace now st roomId uid room hcnd
              room2 hr2
            refine ⟨room, hr, ?_⟩
            intro p hp
            obtain ⟨c2, hg2, hws2, hid2, hls2⟩ := htr2 p hp
            obtain ⟨c1, hg1, hws1, hid1, hls1⟩ := htr1 (p.1, c2)
              (mapGet_some_mem hg2)
            refine ⟨c1, hg1, hws1.trans hws2, hid1.trans hid2, ?_⟩
            rcases hls2 with h2 | h2
            · rcases hls1 with h3 | h3
              · exact Or.inl (h2.trans h3)
              · exact Or.inr (h2.trans h3)
            · exact Or.inr h2
          · intro room' hr' p hp hmem
            rcases List.mem_cons.1 hmem with h1 | h1
            · obtain ⟨room2, hr2, htr2⟩ := hevol room' hr'
              obtain ⟨c2, hg2, _, _, _⟩ := htr2 p hp
              have hhas : mapHas (room.clients.map (refreshEntry now (some uid)))
                  uid = true := by
                unfold mapHas
                rw [mapGet_map_refresh, hc]
                rfl
              have hnone : mapGet room2.clients uid = none := by
                unfold removeClientResult at hr2
                dsimp only at hr2
                rw [if_pos hhas] at hr2
                by_cases h2 : (mapDelete (room.clients.map
                    (refreshEntry now (some uid))) uid).isEmpty = true
                · rw [if_pos h2, mapGet_mapDelete_self] at hr2
                  exact Option.noConfusion hr2
                · rw [if_neg h2, mapGet_mapSet_self] at hr2
                  injection hr2 with hre
                  subst hre
                  exact mapGet_mapDelete_self _ _
              rw [h1, hnone] at hg2
              exact Option.noConfusion hg2
            · exact hpost room' hr' p hp h1
        · obtain ⟨st', hrun, hevol, hpost⟩ := ih (F - 1) st (by omega) hinv
          refine ⟨st', ?_, hevol, ?_⟩
          · simp only [cleanupClientsLoop, hr, hc, if_neg hexp]
            exact hrun
          · intro room' hr' p hp hmem
            rcases List.mem_cons.1 hmem with h1 | h1
            · obtain ⟨room0, hr0, htr⟩ := hevol room' hr'
              injection (hr0.symm.trans hr) with he
              subst he
              obtain ⟨c, hgetc, _, _, hls⟩ := htr p hp
              rw [h1, hc] at hgetc
              injection hgetc with hce
              subst hce
              rcases hls with h2 | h2
              · rw [h2]
                omega
              · rw [h2]
                omega
            · exact hpost room' hr' p hp h1

/-- Claim C7 (corrected).  First conjunct: at a sweep of a due room whose
sends all succeed, the loop over the snapshot of member keys completes,
every member over `CLIENT_TIMEOUT` at the sweep time is afterwards either
evicted or left with `lastSeen` refreshed to the sweep time (by the
`user_left` fan-out of an earlier eviction), and no surviving member of the
room is still over the timeout — but not every over-threshold member is
evicted, which refutes the claim as stated (see the counterexample).
Second conjunct: a room whose last sweep ran less than `CLEANUP_INTERVAL`
ago is skipped unchanged.  Third conjunct: the timeout threshold strictly
exceeds the heartbeat interval. -/
theorem claim_C7 :
    (∀ (sendOk : Nat → Bool) (now F : Nat) (st : ManagerState)
      (roomId : String) (room : Room),
      (∀ i, sendOk i = true) →
      mapGet st.rooms roomId = some room →
      (room.clients.map Prod.fst).Nodup →
      (∀ p ∈ room.clients, p.2.userId = p.1) →
      room.clients.length + room.clients.length + 4 ≤ F →
      ∃ st',
        cleanupClientsLoop sendOk now F st roomId
            (room.clients.map Prod.fst) = some st' ∧
        (∀ room', mapGet st'.rooms roomId = some room' →
          ∀ q ∈ room.clients, now - q.2.lastSeen > CLIENT_TIMEOUT →
            mapGet room'.clients q.1 = none ∨
            ∃ c', mapGet room'.clients q.1 = some c' ∧ c'.lastSeen = now) ∧
        (∀ room', mapGet st'.rooms roomId = some room' →
          ∀ p ∈ room'.clients, now - p.2.lastSeen ≤ CLIENT_TIMEOUT)) ∧
    (∀ (sendOk : Nat → Bool) (now f : Nat) (st : ManagerState)
      (rid : String) (rest : List String) (room : Room),
      mapGet st.rooms rid = some room →
      now - room.lastCleanup < CLEANUP_INTERVAL →
      cleanupRoomsLoop sendOk now (f + 1) st (rid :: rest)
        = cleanupRoomsLoop sendOk now f st rest) ∧
    PING_INTERVAL < CLIENT_TIMEOUT := by
  refine ⟨?_, ?_, by decide⟩
  · intro sendOk now F st roomId room hsend hlook hcnd hmatch hF
    have hinv : ∀ room0, mapGet st.rooms roomId = some room0 →
        (room0.clients.map Prod.fst).Nodup ∧
        (∀ p ∈ room0.clients, p.2.userId = p.1) ∧
        room0.clients.length ≤ room.clients.length := by
      intro room0 hr0
      injection (hr0.symm.trans hlook) with he
      subst he
      exact ⟨hcnd, hmatch, Nat.le_refl _⟩
    have hF' : (room.clients.map Prod.fst).length + room.clients.length + 4
        ≤ F := by
      rw [List.length_map]
      exact hF
    obtain ⟨st', hrun, hevol, hpost⟩ := cleanupClientsLoop_post sendOk now
      roomId (room.clients.length) hsend (room.clients.map Prod.fst) F st hF' hinv
    refine ⟨st', hrun, ?_, ?_⟩
    · intro room' hr' q hq hqexp
      rcases hcase : mapGet room'.clients q.1 with _ | c'
      · exact Or.inl rfl
      · refine Or.inr ⟨c', rfl, ?_⟩
        have hp' : (q.1, c') ∈ room'.clients := mapGet_some_mem hcase
        have h1 := hpost room' hr' (q.1, c') hp' (List.mem_map.2 ⟨q, hq, rfl⟩)
        obtain ⟨room0, hr0, htr⟩ := hevol room' hr'
        injection (hr0.symm.trans hlook) with he
        rw [he] at htr
        obtain ⟨c, hgetc, _, _, hls⟩ := htr (q.1, c') hp'
        have hq2 : mapGet room.clients q.1 = some q.2 :=
          mapGet_of_mem_nodup hcnd hq
        rw [hq2] at hgetc
        injection hgetc with hce
        subst hce
        dsimp only at h1 hls
        rcases hls with h2 | h2
        · exfalso
          rw [h2] at h1
          omega
        · exact h2
    · intro room' hr' p hp
      obtain ⟨room0, hr0, htr⟩ := hevol room' hr'
      injection (hr0.symm.trans hlook) with he
      subst he
      obtain ⟨c, hgetc, _, _, _⟩ := htr p hp
      exact hpost room' hr' p hp (mem_keys_of_mapGet_some hgetc)
  · intro sendOk now f st rid rest room hlook hlt
    simp only [cleanupRoomsLoop, hlook, if_pos hlt]

/-- Concrete instances of the three parts of claim C7: the sweep at time
`70000` of room `"r"` with the two expired members `u` and `v` (the
counterexample configuration), a skipped not-yet-due room, and the constant
inequality. -/
theorem claim_C7_witness :
    (∃ st',
      cleanupClientsLoop sendAll 70000 8 stBothExpired "r"
          (roomBothExpired.clients.map Prod.fst) = some st' ∧
      (∀ room', mapGet st'.rooms "r" = some room' →
        ∀ q ∈ roomBothExpired.clients, 70000 - q.2.lastSeen > CLIENT_TIMEOUT →
          mapGet room'.clients q.1 = none ∨
          ∃ c', mapGet room'.clients q.1 = some c' ∧ c'.lastSeen = 70000) ∧
      (∀ room', mapGet st'.rooms "r" = some room' →
        ∀ p ∈ room'.clients, 70000 - p.2.lastSeen ≤ CLIENT_TIMEOUT)) ∧
    cleanupRoomsLoop sendAll 100 3 stAliceBob ["r"]
      = cleanupRoomsLoop sendAll 100 2 stAliceBob [] ∧
    PING_INTERVAL < CLIENT_TIMEOUT :=
  ⟨claim_C7.1 sendAll 70000 8 stBothExpired "r" roomBothExpired (fun _ => rfl)
      (by decide) (by decide) (by decide) (by decide),
   claim_C7.2.1 sendAll 100 2 stAliceBob "r" [] roomAB (by decide) (by decide),
   claim_C7.2.2⟩
